import Mathlib

/-!
Verification of the emberdeck dual-source consistency engine.

Shallow embedding of the card store (SQLite tables with the unique index
`uq_card_relation(type, src_card_key, dst_card_key)` and FK cascades), the
card files, and the operations layer (`createCard`, `updateCard`,
`renameCard`, `getRelationGraph`), together with the concurrency-free
primitives `safeWriteOperation` and `withRetry` from `src/ops/safe.ts`.

Conventions of the embedding:
- fallible code returns `Except` (or a `state × Option error` pair for
  repository actions run inside a store transaction);
- `db.transaction` semantics: when the transaction body throws, the whole
  `DbState` reverts to its value at transaction start and the error
  propagates;
- `withCardLock` and `withRetry` wrappers inside operations are the
  identity in this sequential embedding (a single deterministic attempt,
  no concurrent holder); busy errors are modelled only for `withRetry`
  itself, where the wrapped function is an attempt-indexed outcome family;
- file-system writes (`mkdir` + `writeCardFile`) always succeed in the
  model; file reads and existence checks consult an association list
  keyed by path.
-/

namespace Emberdeck

/-! ## Data model (src/card/types.ts, src/db/repository.ts, drizzle schema) -/

/-- Card lifecycle status enum (`CardStatus` in src/card/types.ts). -/
inductive CardStatus where
  | draft
  | accepted
  | implementing
  | implemented
  | deprecated
deriving DecidableEq, Repr

/-- A declared relation in input/front matter: `{ type, target }`
(`CardRelation` in src/card/types.ts). -/
structure CardRelation where
  type : String
  target : String
deriving DecidableEq, Repr

/-- A code link in input/front matter: `{ kind, file, symbol }`
(`CodeLink` in src/card/types.ts). -/
structure CodeLink where
  kind : String
  file : String
  symbol : String
deriving DecidableEq, Repr

/-- A stored relation edge (`card_relation` row; `RelationRow` in
src/db/repository.ts). The `id` autoincrement column is not observable
through the repository API and is omitted. -/
structure RelationRow where
  type : String
  srcCardKey : String
  dstCardKey : String
  isReverse : Bool
deriving DecidableEq, Repr

/-- A stored card row (`card` table; `CardRow` in src/db/repository.ts).
`constraintsJson` is the JSON text of the opaque constraints blob
(`none` = SQL NULL). -/
structure CardRow where
  key : String
  summary : String
  status : CardStatus
  constraintsJson : Option String
  body : String
  filePath : String
  updatedAt : String
deriving DecidableEq, Repr

/-- A stored code link row (`code_link` table; `CodeLinkRow` in
src/db/repository.ts), again without the autoincrement id. -/
structure CodeLinkRow where
  cardKey : String
  kind : String
  file : String
  symbol : String
deriving DecidableEq, Repr

/-- The relational store state: the `card`, `card_relation`,
`card_keyword`, `card_tag` and `code_link` tables. Classification name
interning (`keyword`/`tag` name rows) is not observable through the
mappings and is not tracked. -/
structure DbState where
  cards : List CardRow
  relations : List RelationRow
  cardKeywords : List (String × String)
  cardTags : List (String × String)
  codeLinks : List CodeLinkRow
deriving DecidableEq, Repr

/-- The empty store (fresh database after migrations). -/
def emptyDb : DbState := ⟨[], [], [], [], []⟩

/-! ## Error kinds (src/card/errors.ts) -/

/-- Domain error kinds raised by the operations layer. `uniqueViolation`
and `codeLinkUnique` stand for the raw SQLite UNIQUE-constraint errors
that the repositories re-throw (src/db/relation-repo.ts,
src/db/code-link-repo.ts). -/
inductive OpError where
  | cardKey (msg : String)
  | validation (msg : String)
  | notFound (key : String)
  | alreadyExists (key : String)
  | renameSamePath
  | relationType (type : String)
  | uniqueViolation (type src dst : String)
  | codeLinkUnique (cardKey kind file symbol : String)
deriving DecidableEq, Repr

/-! ## Safe write (src/ops/safe.ts, safeWriteOperation) -/

/-- Result error of `safeWriteOperation`: either one underlying error
re-raised as-is, or a `CompensationError` carrying the original file
error and the compensation error (src/card/errors.ts lines 78-86). -/
inductive SafeError (ε : Type) where
  | plain (e : ε)
  | compensation (originalError compensationError : ε)
deriving DecidableEq, Repr

/-- Embedding of `safeWriteOperation` (src/ops/safe.ts lines 106-125):
run `dbAction`; on failure propagate without compensation. On success run
`fileAction`; on success return the db result. If `fileAction` fails, run
`compensate dbResult`: if it succeeds re-raise the file error, otherwise
raise `CompensationError` with both errors. -/
def safeWriteOperation {α ε : Type} (dbAction : Except ε α)
    (fileAction : Except ε Unit) (compensate : α → Except ε Unit) :
    Except (SafeError ε) α :=
  match dbAction with
  | .error e => .error (.plain e)
  | .ok result =>
    match fileAction with
    | .ok _ => .ok result
    | .error err =>
      match compensate result with
      | .ok _ => .error (.plain err)
      | .error compErr => .error (.compensation err compErr)

/-! ## Retry with exponential backoff (src/ops/safe.ts, withRetry) -/

/-- Char-list prefix test (structural helper for substring search). -/
def isPrefixOfChars : List Char → List Char → Bool
  | [], _ => true
  | _ :: _, [] => false
  | a :: as, b :: bs => a == b && isPrefixOfChars as bs

/-- Char-list substring test: does `needle` occur inside the second
list? Structural counterpart of `String.prototype.includes`. -/
def containsChars (needle : List Char) : List Char → Bool
  | [] => isPrefixOfChars needle []
  | c :: rest => isPrefixOfChars needle (c :: rest) || containsChars needle rest

/-- Embedding of `isSqliteBusy` (src/ops/safe.ts lines 26-28): the raised
error message contains the substring "database is locked"
(`err.message.includes(...)`). -/
def isSqliteBusy (msg : String) : Bool :=
  containsChars "database is locked".data msg.data

/-- Default `maxRetries` of `withRetry` (src/ops/safe.ts line 51). -/
def defaultMaxRetries : Nat := 3

/-- Default `baseDelayMs` of `withRetry` (src/ops/safe.ts line 51). -/
def defaultBaseDelayMs : Nat := 50

/-- Default `maxDelayMs` of `withRetry` (src/ops/safe.ts line 51). -/
def defaultMaxDelayMs : Nat := 2000

/-- Loop body of `withRetry` (src/ops/safe.ts lines 47-69). The wrapped
function is modelled as an attempt-indexed outcome family
`f : Nat → Except String α` (the result of its n-th invocation; errors
carry their message). `remaining` counts the retries still allowed
(`maxRetries - attempt`), so the `attempt <= maxRetries` loop is
structural recursion on `remaining`. The returned list records the
back-off sleeps `min(baseDelayMs * 2 ^ attempt, maxDelayMs)` performed
before each retry, in order. -/
def withRetryAux {α : Type} (f : Nat → Except String α)
    (baseDelayMs maxDelayMs : Nat) :
    (attempt : Nat) → (remaining : Nat) → List Nat × Except String α
  | attempt, 0 =>
    match f attempt with
    | .ok v => ([], .ok v)
    | .error e => ([], .error e)
  | attempt, remaining + 1 =>
    match f attempt with
    | .ok v => ([], .ok v)
    | .error e =>
      if isSqliteBusy e then
        let delay := min (baseDelayMs * 2 ^ attempt) maxDelayMs
        let rest := withRetryAux f baseDelayMs maxDelayMs (attempt + 1) remaining
        (delay :: rest.1, rest.2)
      else ([], .error e)

/-- Embedding of `withRetry` with explicit options. -/
def withRetry {α : Type} (f : Nat → Except String α)
    (maxRetries baseDelayMs maxDelayMs : Nat) : List Nat × Except String α :=
  withRetryAux f baseDelayMs maxDelayMs 0 maxRetries

/-- `withRetry` with the source defaults `{3, 50, 2000}`. -/
def withRetryDefaults {α : Type} (f : Nat → Except String α) :
    List Nat × Except String α :=
  withRetry f defaultMaxRetries defaultBaseDelayMs defaultMaxDelayMs

/-! ## Key module (src/card/card-key.ts) -/

/-- Characters admitted by the slug character class `[A-Za-z0-9._-]`. -/
def slugAllowedChar (c : Char) : Bool :=
  c.isAlpha || c.isDigit || c == '.' || c == '_' || c == '-'

/-- Split a char list on `/` separators (the segment decomposition the
slug regex performs; empty segments witness `//` or boundary slashes). -/
def splitSegs : List Char → List (List Char)
  | [] => [[]]
  | c :: rest =>
    match splitSegs rest with
    | [] => [[]]
    | seg :: segs =>
      if c == '/' then [] :: seg :: segs else (c :: seg) :: segs

/-- A segment admitted by the slug pattern: non-empty and neither `.`
nor `..`. -/
def validSeg (seg : List Char) : Bool :=
  !seg.isEmpty && seg != ['.'] && seg != ['.', '.']

/-- Embedding of the `CARD_SLUG_RE` test: non-empty, only allowed
characters and `/` separators, no empty segment (so no `//`, no boundary
slash), and no segment equal to `.` or `..`. Colons and drive letters are
already excluded by the character class. -/
def validSlug (s : String) : Bool :=
  !s.data.isEmpty &&
  s.data.all (fun c => slugAllowedChar c || c == '/') &&
  (splitSegs s.data).all validSeg

/-- Normalization half of `normalizeSlug`: replace backslashes with
slashes, then strip leading and trailing slashes. -/
def normalizeSlugStr (slug : String) : String :=
  (((slug.data.map (fun c => if c == '\\' then '/' else c)).dropWhile
    (fun c => c == '/')).reverse.dropWhile (fun c => c == '/')).reverse.asString

/-- Embedding of `normalizeSlug` (src/card/card-key.ts lines 35-39):
normalize, then validate against the slug pattern; invalid slugs raise
`CardKeyError`. -/
def normalizeSlug (slug : String) : Except OpError String :=
  let normalized := normalizeSlugStr slug
  if validSlug normalized then .ok normalized
  else .error (.cardKey ("Invalid card slug: " ++ slug))

/-- Embedding of `parseFullKey` (src/card/card-key.ts lines 49-54):
empty keys are rejected, otherwise the key is normalized like a slug. -/
def parseFullKey (fullKey : String) : Except OpError String :=
  if fullKey.isEmpty then .error (.cardKey "Invalid card key: empty")
  else normalizeSlug fullKey

/-- Embedding of `buildCardPath` (src/card/card-key.ts lines 63-65):
`cardsDir + "/" + slug + ".card.md"`. -/
def buildCardPath (cardsDir slug : String) : String :=
  cardsDir ++ "/" ++ slug ++ ".card.md"

/-! ## Input validator (src/card/validation.ts) -/

namespace LIMITS

/-- Maximum summary length. -/
def SUMMARY_MAX : Nat := 500

/-- Maximum body length. -/
def BODY_MAX : Nat := 100000

/-- Maximum item count of any list field. -/
def ARRAY_MAX : Nat := 100

/-- Maximum length of an individual keyword or tag. -/
def ITEM_MAX : Nat := 100

/-- Maximum length of a relation target. -/
def RELATION_TARGET_MAX : Nat := 200

/-- Maximum length of a code-link symbol. -/
def CODE_LINK_SYMBOL_MAX : Nat := 200

/-- Maximum length of a code-link file path. -/
def CODE_LINK_FILE_MAX : Nat := 500

end LIMITS

/-- Input record of `validateCardInput` (src/card/validation.ts lines
65-72); `none` fields are skipped. -/
structure ValidationInput where
  summary : Option String
  body : Option String
  keywords : Option (List String)
  tags : Option (List String)
  relations : Option (List CardRelation)
  codeLinks : Option (List CodeLink)
deriving DecidableEq, Repr

/-- Summary checks of `validateCardInput`: non-empty and at most 500
characters. -/
def validateSummary : Option String → Except String Unit
  | none => .ok ()
  | some s =>
    if s.length = 0 then .error "summary must not be empty"
    else if s.length > LIMITS.SUMMARY_MAX then
      .error ("summary exceeds maximum length of " ++
        toString LIMITS.SUMMARY_MAX ++ " characters (got " ++
        toString s.length ++ ")")
    else .ok ()

/-- Body check of `validateCardInput`: at most 100000 characters. -/
def validateBody : Option String → Except String Unit
  | none => .ok ()
  | some b =>
    if b.length > LIMITS.BODY_MAX then
      .error ("body exceeds maximum length of " ++
        toString LIMITS.BODY_MAX ++ " characters (got " ++
        toString b.length ++ ")")
    else .ok ()

/-- Per-item loop of the keywords check. -/
def validateKeywordItems : List String → Except String Unit
  | [] => .ok ()
  | kw :: rest =>
    if kw.length > LIMITS.ITEM_MAX then
      .error ("keyword item exceeds maximum length of " ++
        toString LIMITS.ITEM_MAX ++ " characters")
    else validateKeywordItems rest

/-- Keywords checks of `validateCardInput`: at most 100 items, each of at
most 100 characters. -/
def validateKeywords : Option (List String) → Except String Unit
  | none => .ok ()
  | some ks =>
    if ks.length > LIMITS.ARRAY_MAX then
      .error ("keywords array exceeds maximum of " ++
        toString LIMITS.ARRAY_MAX ++ " items (got " ++
        toString ks.length ++ ")")
    else validateKeywordItems ks

/-- Per-item loop of the tags check. -/
def validateTagItems : List String → Except String Unit
  | [] => .ok ()
  | tag :: rest =>
    if tag.length > LIMITS.ITEM_MAX then
      .error ("tag item exceeds maximum length of " ++
        toString LIMITS.ITEM_MAX ++ " characters")
    else validateTagItems rest

/-- Tags checks of `validateCardInput`. -/
def validateTags : Option (List String) → Except String Unit
  | none => .ok ()
  | some ts =>
    if ts.length > LIMITS.ARRAY_MAX then
      .error ("tags array exceeds maximum of " ++
        toString LIMITS.ARRAY_MAX ++ " items (got " ++
        toString ts.length ++ ")")
    else validateTagItems ts

/-- Per-item loop of the relations check. -/
def validateRelationItems : List CardRelation → Except String Unit
  | [] => .ok ()
  | rel :: rest =>
    if rel.target.length > LIMITS.RELATION_TARGET_MAX then
      .error ("relation target exceeds maximum length of " ++
        toString LIMITS.RELATION_TARGET_MAX ++ " characters")
    else validateRelationItems rest

/-- Relations checks of `validateCardInput`. -/
def validateRelations : Option (List CardRelation) → Except String Unit
  | none => .ok ()
  | some rels =>
    if rels.length > LIMITS.ARRAY_MAX then
      .error ("relations array exceeds maximum of " ++
        toString LIMITS.ARRAY_MAX ++ " items (got " ++
        toString rels.length ++ ")")
    else validateRelationItems rels

/-- Per-item loop of the code-links check: symbol first, then file. -/
def validateCodeLinkItems : List CodeLink → Except String Unit
  | [] => .ok ()
  | link :: rest =>
    if link.symbol.length > LIMITS.CODE_LINK_SYMBOL_MAX then
      .error ("codeLink symbol exceeds maximum length of " ++
        toString LIMITS.CODE_LINK_SYMBOL_MAX ++ " characters")
    else if link.file.length > LIMITS.CODE_LINK_FILE_MAX then
      .error ("codeLink file path exceeds maximum length of " ++
        toString LIMITS.CODE_LINK_FILE_MAX ++ " characters")
    else validateCodeLinkItems rest

/-- Code-links checks of `validateCardInput`. -/
def validateCodeLinks : Option (List CodeLink) → Except String Unit
  | none => .ok ()
  | some links =>
    if links.length > LIMITS.ARRAY_MAX then
      .error ("codeLinks array exceeds maximum of " ++
        toString LIMITS.ARRAY_MAX ++ " items (got " ++
        toString links.length ++ ")")
    else validateCodeLinkItems links

/-- Embedding of `validateCardInput` (src/card/validation.ts lines
83-173): fields are checked in order summary, body, keywords, tags,
relations, codeLinks; the first violation is reported as
`CardValidationError` with its message. -/
def validateCardInput (input : ValidationInput) : Except String Unit := do
  validateSummary input.summary
  validateBody input.body
  validateKeywords input.keywords
  validateTags input.tags
  validateRelations input.relations
  validateCodeLinks input.codeLinks

/-- Spec-side ceiling on the summary (claimed: non-empty, at most 500
characters). -/
def summaryViol : Option String → Bool
  | some s => s.length = 0 || s.length > 500
  | none => false

/-- Spec-side ceiling on the body (claimed: at most 100000 characters). -/
def bodyViol : Option String → Bool
  | some b => b.length > 100000
  | none => false

/-- Spec-side ceilings on keywords (at most 100 items, each at most 100
characters). -/
def keywordsViol : Option (List String) → Bool
  | some ks => ks.length > 100 || ks.any (fun k => k.length > 100)
  | none => false

/-- Spec-side ceilings on tags (at most 100 items, each at most 100
characters). -/
def tagsViol : Option (List String) → Bool
  | some ts => ts.length > 100 || ts.any (fun t => t.length > 100)
  | none => false

/-- Spec-side ceilings on relations (at most 100 items, targets at most
200 characters). -/
def relationsViol : Option (List CardRelation) → Bool
  | some rels => rels.length > 100 || rels.any (fun r => r.target.length > 200)
  | none => false

/-- Spec-side ceilings on code links (at most 100 items, symbols at most
200 characters, files at most 500 characters). -/
def codeLinksViol : Option (List CodeLink) → Bool
  | some links => links.length > 100 ||
      links.any (fun l => l.symbol.length > 200 || l.file.length > 500)
  | none => false

/-- Spec-side restatement of the per-field size ceilings of section 4.3
of the specification, as one order-free boolean. Used to compare the
claimed ceilings with `validateCardInput`. -/
def violatesCeilings (v : ValidationInput) : Bool :=
  summaryViol v.summary || bodyViol v.body || keywordsViol v.keywords ||
  tagsViol v.tags || relationsViol v.relations || codeLinksViol v.codeLinks

/-! ## Card repository (src/db/card-repo.ts) -/

/-- Keys of existing card rows, used for FK checks inside a transaction. -/
def cardKeys (db : DbState) : List String :=
  db.cards.map (fun c => c.key)

/-- Embedding of `CardRepository.existsByKey`. -/
def existsByKey (db : DbState) (key : String) : Bool :=
  db.cards.any (fun c => c.key == key)

/-- Embedding of `CardRepository.findByKey`. -/
def findByKey (db : DbState) (key : String) : Option CardRow :=
  db.cards.find? (fun c => c.key == key)

/-- Embedding of `CardRepository.upsert`: insert, or on key conflict
update every other column of the matching row. -/
def upsertCard (db : DbState) (row : CardRow) : DbState :=
  { db with cards :=
      if db.cards.any (fun c => c.key == row.key) then
        db.cards.map (fun c => if c.key == row.key then row else c)
      else
        db.cards ++ [row] }

/-- Embedding of `CardRepository.deleteByKey` together with the schema's
`ON DELETE CASCADE` actions: the card row goes away along with every
relation edge touching the key (either endpoint), its classification
mappings, and its code links. -/
def deleteCardCascade (db : DbState) (key : String) : DbState :=
  { cards := db.cards.filter (fun c => c.key != key),
    relations := db.relations.filter
      (fun r => r.srcCardKey != key && r.dstCardKey != key),
    cardKeywords := db.cardKeywords.filter (fun m => m.1 != key),
    cardTags := db.cardTags.filter (fun m => m.1 != key),
    codeLinks := db.codeLinks.filter (fun l => l.cardKey != key) }

/-! ## Relation repository (src/db/relation-repo.ts, uq_card_relation) -/

/-- Outcome of one `INSERT INTO card_relation`: the row is appended, or
SQLite raises a FOREIGN KEY error (an endpoint card row is missing), or a
UNIQUE error from `uq_card_relation(type, src_card_key, dst_card_key)` —
note the index ignores `is_reverse`. -/
inductive RelInsertResult where
  | inserted (relations : List RelationRow)
  | fkViolation
  | uniqueViolation (type src dst : String)
deriving DecidableEq, Repr

/-- One relation insert against the FK and unique constraints. -/
def insertRelation (cardsList : List String) (relations : List RelationRow)
    (e : RelationRow) : RelInsertResult :=
  if !(cardsList.contains e.srcCardKey && cardsList.contains e.dstCardKey) then
    .fkViolation
  else if relations.any (fun r =>
      r.type == e.type && r.srcCardKey == e.srcCardKey &&
      r.dstCardKey == e.dstCardKey) then
    .uniqueViolation e.type e.srcCardKey e.dstCardKey
  else
    .inserted (relations ++ [e])

/-- Payload of a re-thrown UNIQUE error from the relation insert loop. -/
structure RelUniqueErr where
  type : String
  src : String
  dst : String
deriving DecidableEq, Repr

/-- The forward edge inserted for a declared relation of `cardKey`. -/
def forwardRow (cardKey : String) (rel : CardRelation) : RelationRow :=
  ⟨rel.type, cardKey, rel.target, false⟩

/-- The mirror edge inserted for a declared relation of `cardKey`. -/
def mirrorRow (cardKey : String) (rel : CardRelation) : RelationRow :=
  ⟨rel.type, rel.target, cardKey, true⟩

/-- Insert loop of `DrizzleRelationRepository.replaceForCard`
(src/db/relation-repo.ts lines 26-53): for each declared relation, insert
the forward edge then its mirror inside one try block; a FOREIGN KEY
error skips the whole relation (warning only), any other error — in
practice the UNIQUE error — is re-thrown, leaving the rows inserted so
far in the raw connection state (the surrounding store transaction rolls
them back). -/
def replaceRelLoop (cardsList : List String) (cardKey : String) :
    List CardRelation → List RelationRow →
    List RelationRow × Option RelUniqueErr
  | [], st => (st, none)
  | rel :: rest, st =>
    match insertRelation cardsList st (forwardRow cardKey rel) with
    | .fkViolation => replaceRelLoop cardsList cardKey rest st
    | .uniqueViolation t s d => (st, some ⟨t, s, d⟩)
    | .inserted st1 =>
      match insertRelation cardsList st1 (mirrorRow cardKey rel) with
      | .fkViolation => replaceRelLoop cardsList cardKey rest st1
      | .uniqueViolation t s d => (st1, some ⟨t, s, d⟩)
      | .inserted st2 => replaceRelLoop cardsList cardKey rest st2

/-- Delete phase of `replaceForCard` (src/db/relation-repo.ts lines
15-22): remove only the edges owned by the card — forward edges with
`srcCardKey = cardKey`, then mirror edges with `dstCardKey = cardKey`
and `isReverse = true`. -/
def deleteOwnedRelations (st : List RelationRow) (cardKey : String) :
    List RelationRow :=
  (st.filter (fun r => !(r.srcCardKey == cardKey && !r.isReverse))).filter
    (fun r => !(r.dstCardKey == cardKey && r.isReverse))

/-- Raw `replaceForCard`: delete the owned edges, then run the insert
loop. On error the first component is the partial connection state at
the throw point. -/
def replaceForCardRaw (cardsList : List String) (st : List RelationRow)
    (cardKey : String) (rels : List CardRelation) :
    List RelationRow × Option RelUniqueErr :=
  replaceRelLoop cardsList cardKey rels (deleteOwnedRelations st cardKey)

/-- `replaceForCard` as observed through the enclosing store transaction:
on success the new relation table, on error the original table plus the
propagated UNIQUE error. Every operations-layer caller runs the
repository inside `ctx.db.transaction`. -/
def replaceForCardTx (cardsList : List String) (st : List RelationRow)
    (cardKey : String) (rels : List CardRelation) :
    List RelationRow × Option RelUniqueErr :=
  match replaceForCardRaw cardsList st cardKey rels with
  | (st1, none) => (st1, none)
  | (_, some e) => (st, some e)

/-- Embedding of `RelationRepository.findByCardKey`: all edges with
`srcCardKey = cardKey`, both directions, in table order. -/
def relationFindByCardKey (st : List RelationRow) (cardKey : String) :
    List RelationRow :=
  st.filter (fun r => r.srcCardKey == cardKey)

/-- Embedding of `RelationRepository.deleteByCardKey` (src/db/
relation-repo.ts lines 64-67): delete every edge with `srcCardKey =
cardKey`, then every edge with `dstCardKey = cardKey`. -/
def relationDeleteByCardKey (st : List RelationRow) (cardKey : String) :
    List RelationRow :=
  (st.filter (fun r => r.srcCardKey != cardKey)).filter
    (fun r => r.dstCardKey != cardKey)

/-! ## Code-link repository (src/db/code-link-repo.ts, uq_code_link) -/

/-- Outcome of one `INSERT INTO code_link` against the FK on `card_key`
and `uq_code_link(card_key, kind, file, symbol)`. -/
inductive LinkInsertResult where
  | inserted (links : List CodeLinkRow)
  | fkViolation
  | uniqueViolation (row : CodeLinkRow)
deriving DecidableEq, Repr

/-- One code-link insert. -/
def insertCodeLink (cardsList : List String) (links : List CodeLinkRow)
    (l : CodeLinkRow) : LinkInsertResult :=
  if !(cardsList.contains l.cardKey) then .fkViolation
  else if links.any (fun r =>
      r.cardKey == l.cardKey && r.kind == l.kind && r.file == l.file &&
      r.symbol == l.symbol) then
    .uniqueViolation l
  else
    .inserted (links ++ [l])

/-- Insert loop of `DrizzleCodeLinkRepository.replaceForCard`
(src/db/code-link-repo.ts lines 15-27): FK violations skip the single
link with a warning, any other error is re-thrown. -/
def replaceLinkLoop (cardsList : List String) (cardKey : String) :
    List CodeLink → List CodeLinkRow →
    List CodeLinkRow × Option CodeLinkRow
  | [], st => (st, none)
  | link :: rest, st =>
    match insertCodeLink cardsList st ⟨cardKey, link.kind, link.file, link.symbol⟩ with
    | .fkViolation => replaceLinkLoop cardsList cardKey rest st
    | .uniqueViolation r => (st, some r)
    | .inserted st1 => replaceLinkLoop cardsList cardKey rest st1

/-- Raw `CodeLinkRepository.replaceForCard`: delete all links of the
card, then insert the given links (the `links.length == 0` early return
is observationally the empty loop). -/
def replaceCodeLinksRaw (cardsList : List String) (st : List CodeLinkRow)
    (cardKey : String) (links : List CodeLink) :
    List CodeLinkRow × Option CodeLinkRow :=
  replaceLinkLoop cardsList cardKey links
    (st.filter (fun l => l.cardKey != cardKey))

/-- Embedding of `CodeLinkRepository.findByCardKey`. -/
def codeLinkFindByCardKey (st : List CodeLinkRow) (cardKey : String) :
    List CodeLinkRow :=
  st.filter (fun l => l.cardKey == cardKey)

/-! ## Classification repository -/

/-- Modelled from the spec: the implementation file of
`DrizzleClassificationRepository` (src/db/classification-repo.ts) is not
among the provided sources — only its interface, callers and tests are.
Section 4.4 of the specification: `replaceKeywords(key, names)` interns
name rows (not observable through the mappings, hence untracked) and
replaces the card's `(cardKey, name)` mapping rows; an empty list deletes
the mappings and inserts none. -/
def replaceKeywords (maps : List (String × String)) (key : String)
    (names : List String) : List (String × String) :=
  maps.filter (fun m => m.1 != key) ++ names.map (fun n => (key, n))

/-- Modelled from the spec: `replaceTags`, the tag twin of
`replaceKeywords` (section 4.4 of the specification). -/
def replaceTags (maps : List (String × String)) (key : String)
    (names : List String) : List (String × String) :=
  maps.filter (fun m => m.1 != key) ++ names.map (fun n => (key, n))

/-! ## Card files (src/card/types.ts, src/fs) -/

/-- Front matter of a card file (`CardFrontmatter` in src/card/types.ts).
Optional fields are absent (`none`) when omitted from the YAML header.
`constraints` is the opaque JSON blob, kept as its JSON text. -/
structure CardFrontmatter where
  key : String
  summary : String
  status : CardStatus
  tags : Option (List String)
  keywords : Option (List String)
  constraints : Option String
  relations : Option (List CardRelation)
  codeLinks : Option (List CodeLink)
deriving DecidableEq, Repr

/-- A parsed card file: front matter plus Markdown body (`CardFile` in
src/card/types.ts; the optional `filePath` field is the association-list
key here). -/
structure CardFile where
  frontmatter : CardFrontmatter
  body : String
deriving DecidableEq, Repr

/-- The file system fragment visible to the engine: card files keyed by
absolute path. -/
abbrev FileSys : Type := List (String × CardFile)

/-- Embedding of `Bun.file(path).exists()`. -/
def fileExists (files : FileSys) (path : String) : Bool :=
  files.any (fun f => f.1 == path)

/-- Embedding of `readCardFile` restricted to its success value; a
missing path reads as `none` (`CardNotFound` at the callers). -/
def readFile (files : FileSys) (path : String) : Option CardFile :=
  (files.find? (fun f => f.1 == path)).map (fun f => f.2)

/-- Embedding of `writeCardFile`: create or overwrite. -/
def writeFile (files : FileSys) (path : String) (cf : CardFile) : FileSys :=
  if files.any (fun f => f.1 == path) then
    files.map (fun f => if f.1 == path then (path, cf) else f)
  else
    files ++ [(path, cf)]

/-- Embedding of file deletion / the source half of an OS rename. -/
def removeFile (files : FileSys) (path : String) : FileSys :=
  files.filter (fun f => f.1 != path)

/-- The dual-source state: card files plus the relational store. -/
structure SysState where
  files : FileSys
  db : DbState
deriving DecidableEq

/-! ## Operations layer (src/ops) -/

/-- Transaction wrapper (`ctx.db.transaction`): when the body reports an
error, the store reverts to its state at transaction start and the error
propagates. -/
def txWrap (db : DbState) (act : DbState × Option OpError) :
    DbState × Option OpError :=
  match act with
  | (db1, none) => (db1, none)
  | (_, some e) => (db, some e)

/-- A present non-empty optional list, following the pervasive
`x && x.length > 0` pattern of the source. -/
def optNonEmpty {α : Type} : Option (List α) → Option (List α)
  | some l => if l.isEmpty then none else some l
  | none => none

/-- Input of `createCard` (src/config.ts lines 210-227, the current copy
of src/ops/create.ts). -/
structure CreateCardInput where
  slug : String
  summary : String
  body : Option String
  keywords : Option (List String)
  tags : Option (List String)
  relations : Option (List CardRelation)
  codeLinks : Option (List CodeLink)
  constraints : Option String
deriving DecidableEq, Repr

/-- Result of `createCard`. -/
structure CreateCardResult where
  filePath : String
  fullKey : String
  card : CardFile
deriving DecidableEq, Repr

/-- The `ValidationInput` that `createCard` passes to
`validateCardInput`. -/
def createInputValidation (input : CreateCardInput) : ValidationInput :=
  ⟨some input.summary, input.body, input.keywords, input.tags,
   input.relations, input.codeLinks⟩

/-- Store-transaction body of `createCard`: upsert the card row, then for
each present non-empty input list replace the relations (with mirrors),
keywords, tags and code links of the new key. -/
def createDbActionRaw (db : DbState) (input : CreateCardInput)
    (fullKey filePath now : String) : DbState × Option OpError :=
  let row : CardRow := ⟨fullKey, input.summary, .draft, input.constraints,
    input.body.getD "", filePath, now⟩
  let db1 := upsertCard db row
  match (match optNonEmpty input.relations with
         | some rels => replaceForCardRaw (cardKeys db1) db1.relations fullKey rels
         | none => (db1.relations, none)) with
  | (rels1, some e) =>
    ({ db1 with relations := rels1 }, some (.uniqueViolation e.type e.src e.dst))
  | (rels1, none) =>
    let db2 := { db1 with relations := rels1 }
    let db3 := match optNonEmpty input.keywords with
               | some ks => { db2 with cardKeywords := replaceKeywords db2.cardKeywords fullKey ks }
               | none => db2
    let db4 := match optNonEmpty input.tags with
               | some ts => { db3 with cardTags := replaceTags db3.cardTags fullKey ts }
               | none => db3
    match (match optNonEmpty input.codeLinks with
           | some links => replaceCodeLinksRaw (cardKeys db4) db4.codeLinks fullKey links
           | none => (db4.codeLinks, none)) with
    | (links1, some r) =>
      ({ db4 with codeLinks := links1 },
       some (.codeLinkUnique r.cardKey r.kind r.file r.symbol))
    | (links1, none) => ({ db4 with codeLinks := links1 }, none)

/-- Embedding of `createCard` (src/config.ts lines 260-352, the current
copy of src/ops/create.ts — the one that calls `validateCardInput`; an
earlier duplicate of the file omits that call). Order: validate input,
normalize the slug, compute the path, then under lock and retry (identity
here): check the relation types against the allow-list, reject an
existing file, build the front matter (status defaults to draft), and
safe-write the store transaction followed by the file write. The model's
file write always succeeds, so the compensation path
(`cardRepo.deleteByKey`) is unreachable; a transaction error leaves the
state untouched and propagates. -/
def createCard (cardsDir : String) (allowed : List String) (now : String)
    (st : SysState) (input : CreateCardInput) :
    SysState × Except OpError CreateCardResult :=
  match validateCardInput (createInputValidation input) with
  | .error m => (st, .error (.validation m))
  | .ok _ =>
    match normalizeSlug input.slug with
    | .error e => (st, .error e)
    | .ok slug =>
      let fullKey := slug
      let filePath := buildCardPath cardsDir slug
      match (input.relations.getD []).find? (fun r => !(allowed.contains r.type)) with
      | some r => (st, .error (.relationType r.type))
      | none =>
        if fileExists st.files filePath then (st, .error (.alreadyExists fullKey))
        else
          let frontmatter : CardFrontmatter :=
            ⟨fullKey, input.summary, .draft, optNonEmpty input.tags,
             optNonEmpty input.keywords, input.constraints,
             optNonEmpty input.relations, optNonEmpty input.codeLinks⟩
          let body := input.body.getD ""
          let card : CardFile := ⟨frontmatter, body⟩
          match txWrap st.db (createDbActionRaw st.db input fullKey filePath now) with
          | (_, some e) => (st, .error e)
          | (db1, none) =>
            (⟨writeFile st.files filePath card, db1⟩, .ok ⟨filePath, fullKey, card⟩)

/-- Partial-update fields of `updateCard` (src/ops/update.ts lines
21-36). The outer `Option` is `undefined` (keep), the inner `none` is
`null` (delete the optional field). -/
structure UpdateCardFields where
  summary : Option String
  body : Option String
  keywords : Option (Option (List String))
  tags : Option (Option (List String))
  constraints : Option (Option String)
  relations : Option (Option (List CardRelation))
  codeLinks : Option (Option (List CodeLink))
deriving DecidableEq, Repr

/-- Result of `updateCard`. -/
structure UpdateCardResult where
  filePath : String
  card : CardFile
deriving DecidableEq, Repr

/-- Next-front-matter composition of `updateCard` (src/ops/update.ts
lines 98-116): `undefined` keeps the prior value, `null` or an empty list
deletes the optional field. -/
def composeNext (current : CardFrontmatter) (fields : UpdateCardFields) :
    CardFrontmatter :=
  { current with
    summary := fields.summary.getD current.summary,
    keywords := match fields.keywords with
                | none => current.keywords
                | some v => optNonEmpty v,
    tags := match fields.tags with
            | none => current.tags
            | some v => optNonEmpty v,
    constraints := match fields.constraints with
                   | none => current.constraints
                   | some v => v,
    relations := match fields.relations with
                 | none => current.relations
                 | some v => optNonEmpty v,
    codeLinks := match fields.codeLinks with
                 | none => current.codeLinks
                 | some v => optNonEmpty v }

/-- Store-transaction body of `updateCard`: upsert the card row, then for
each field that was specified replace the corresponding set. -/
def updateDbActionRaw (db : DbState) (fields : UpdateCardFields)
    (next : CardFrontmatter) (key filePath nextBody now : String) :
    DbState × Option OpError :=
  let row : CardRow := ⟨key, next.summary, next.status, next.constraints,
    nextBody, filePath, now⟩
  let db1 := upsertCard db row
  match (match fields.relations with
         | some _ => replaceForCardRaw (cardKeys db1) db1.relations key (next.relations.getD [])
         | none => (db1.relations, none)) with
  | (rels1, some e) =>
    ({ db1 with relations := rels1 }, some (.uniqueViolation e.type e.src e.dst))
  | (rels1, none) =>
    let db2 := { db1 with relations := rels1 }
    let db3 := match fields.keywords with
               | some _ => { db2 with cardKeywords := replaceKeywords db2.cardKeywords key (next.keywords.getD []) }
               | none => db2
    let db4 := match fields.tags with
               | some _ => { db3 with cardTags := replaceTags db3.cardTags key (next.tags.getD []) }
               | none => db3
    match (match fields.codeLinks with
           | some _ => replaceCodeLinksRaw (cardKeys db4) db4.codeLinks key (next.codeLinks.getD [])
           | none => (db4.codeLinks, none)) with
    | (links1, some r) =>
      ({ db4 with codeLinks := links1 },
       some (.codeLinkUnique r.cardKey r.kind r.file r.symbol))
    | (links1, none) => ({ db4 with codeLinks := links1 }, none)

/-- Embedding of `updateCard` (src/ops/update.ts lines 63-159): validate
(null lists coerce to undefined for validation), parse the key, read the
file (absent file or front-matter key mismatch is `CardNotFoundError`),
check new relation types, compose the next front matter, then safe-write
the transaction and the file write. -/
def updateCard (cardsDir : String) (allowed : List String) (now : String)
    (st : SysState) (fullKey : String) (fields : UpdateCardFields) :
    SysState × Except OpError UpdateCardResult :=
  match validateCardInput ⟨fields.summary, fields.body, fields.keywords.join,
      fields.tags.join, fields.relations.join, fields.codeLinks.join⟩ with
  | .error m => (st, .error (.validation m))
  | .ok _ =>
    match parseFullKey fullKey with
    | .error e => (st, .error e)
    | .ok key =>
      let filePath := buildCardPath cardsDir key
      match readFile st.files filePath with
      | none => (st, .error (.notFound key))
      | some current =>
        if current.frontmatter.key != key then (st, .error (.notFound key))
        else
          match (fields.relations.join.getD []).find? (fun r => !(allowed.contains r.type)) with
          | some r => (st, .error (.relationType r.type))
          | none =>
            let next := composeNext current.frontmatter fields
            let nextBody := fields.body.getD current.body
            let card : CardFile := ⟨next, nextBody⟩
            match txWrap st.db (updateDbActionRaw st.db fields next key filePath nextBody now) with
            | (_, some e) => (st, .error e)
            | (db1, none) =>
              (⟨writeFile st.files filePath card, db1⟩, .ok ⟨filePath, card⟩)

/-- Result of `renameCard` (src/ops/rename.ts lines 21-30). -/
structure RenameCardResult where
  oldFilePath : String
  newFilePath : String
  newFullKey : String
  card : CardFile
deriving DecidableEq, Repr

/-- Store-transaction body of `renameCard` (src/ops/rename.ts lines
87-126): snapshot the old card's forward relations, keywords, tags and
code links; cascade-delete the old row; insert the new row preserving
summary, status, constraints and body; re-insert the snapshots under the
new key when non-empty. -/
def renameDbActionRaw (db : DbState) (oldKey newFullKey newFilePath now : String)
    (card : CardFile) : DbState × Option OpError :=
  let oldRelations := ((relationFindByCardKey db.relations oldKey).filter
    (fun r => !r.isReverse)).map (fun r => CardRelation.mk r.type r.dstCardKey)
  let oldKeywords := (db.cardKeywords.filter (fun m => m.1 == oldKey)).map (fun m => m.2)
  let oldTags := (db.cardTags.filter (fun m => m.1 == oldKey)).map (fun m => m.2)
  let oldCodeLinks := codeLinkFindByCardKey db.codeLinks oldKey
  let db1 := deleteCardCascade db oldKey
  let row : CardRow := ⟨newFullKey, card.frontmatter.summary, card.frontmatter.status,
    card.frontmatter.constraints, card.body, newFilePath, now⟩
  let db2 := upsertCard db1 row
  match (if oldRelations.isEmpty then (db2.relations, none)
         else replaceForCardRaw (cardKeys db2) db2.relations newFullKey oldRelations) with
  | (rels1, some e) =>
    ({ db2 with relations := rels1 }, some (.uniqueViolation e.type e.src e.dst))
  | (rels1, none) =>
    let db3 := { db2 with relations := rels1 }
    let db4 := { db3 with cardKeywords := if oldKeywords.isEmpty then db3.cardKeywords
                 else replaceKeywords db3.cardKeywords newFullKey oldKeywords }
    let db5 := { db4 with cardTags := if oldTags.isEmpty then db4.cardTags
                 else replaceTags db4.cardTags newFullKey oldTags }
    match (if oldCodeLinks.isEmpty then (db5.codeLinks, none)
           else replaceCodeLinksRaw (cardKeys db5) db5.codeLinks newFullKey
             (oldCodeLinks.map (fun l => CodeLink.mk l.kind l.file l.symbol))) with
    | (links1, some r) =>
      ({ db5 with codeLinks := links1 },
       some (.codeLinkUnique r.cardKey r.kind r.file r.symbol))
    | (links1, none) => ({ db5 with codeLinks := links1 }, none)

/-- Embedding of `renameCard` (src/ops/rename.ts lines 52-144): parse and
normalize both keys, reject identical paths, require the old file present
and the new file absent, move the file and rewrite its front-matter key,
then run the store transaction; on transaction failure move the file back
and restore the original key before propagating. -/
def renameCard (cardsDir now : String) (st : SysState)
    (fullKey newSlug : String) : SysState × Except OpError RenameCardResult :=
  match parseFullKey fullKey with
  | .error e => (st, .error e)
  | .ok oldKey =>
    match normalizeSlug newSlug with
    | .error e => (st, .error e)
    | .ok newFullKey =>
      let oldFilePath := buildCardPath cardsDir oldKey
      let newFilePath := buildCardPath cardsDir newFullKey
      if oldFilePath == newFilePath then (st, .error .renameSamePath)
      else if !(fileExists st.files oldFilePath) then (st, .error (.notFound oldKey))
      else if fileExists st.files newFilePath then (st, .error (.alreadyExists newFullKey))
      else
        match readFile st.files oldFilePath with
        | none => (st, .error (.notFound oldKey))
        | some moved =>
          let files1 := writeFile (removeFile st.files oldFilePath) newFilePath moved
          let card : CardFile := ⟨{ moved.frontmatter with key := newFullKey }, moved.body⟩
          let files2 := writeFile files1 newFilePath card
          match txWrap st.db (renameDbActionRaw st.db oldKey newFullKey newFilePath now card) with
          | (_, some e) =>
            let files3 := writeFile (removeFile files2 newFilePath) oldFilePath card
            let restored : CardFile := ⟨{ card.frontmatter with key := oldKey }, card.body⟩
            (⟨writeFile files3 oldFilePath restored, st.db⟩, .error e)
          | (db1, none) => (⟨files2, db1⟩, .ok ⟨oldFilePath, newFilePath, newFullKey, card⟩)

/-- Embedding of `getCard` (src/ops/query.ts lines 109-114): parse the
key, and read the card file; an absent file is `CardNotFoundError`. -/
def getCard (cardsDir : String) (st : SysState) (fullKey : String) :
    Except OpError CardFile :=
  match parseFullKey fullKey with
  | .error e => .error e
  | .ok key =>
    match readFile st.files (buildCardPath cardsDir key) with
    | none => .error (.notFound key)
    | some cf => .ok cf

/-! ## Relation graph traversal (src/ops/query.ts, getRelationGraph) -/

/-- The `direction` option of `getRelationGraph`. -/
inductive GraphDirection where
  | forward
  | backward
  | both
deriving DecidableEq, Repr

/-- Direction through which a node was first reached. -/
inductive EdgeDir where
  | forward
  | backward
deriving DecidableEq, Repr

/-- An emitted traversal node (`RelationGraphNode` in src/ops/query.ts
lines 12-17). -/
structure RelationGraphNode where
  key : String
  depth : Nat
  relationType : String
  direction : EdgeDir
deriving DecidableEq, Repr

/-- The two `continue` guards on the direction option (src/ops/query.ts
lines 47-50). -/
def dirSkip (direction : GraphDirection) (rel : RelationRow) : Bool :=
  match direction with
  | .forward => rel.isReverse
  | .backward => !rel.isReverse
  | .both => false

/-- Inner for-loop of the BFS (src/ops/query.ts lines 46-64): for each
edge out of the current key, skip by direction, skip already-visited
targets, skip targets with no card row; otherwise mark visited, emit the
node and enqueue the target. -/
def expandRels (db : DbState) (direction : GraphDirection) (depth : Nat) :
    List RelationRow → List String → List RelationGraphNode →
    List (String × Nat) →
    List String × List RelationGraphNode × List (String × Nat)
  | [], visited, acc, queue => (visited, acc, queue)
  | rel :: rest, visited, acc, queue =>
    if dirSkip direction rel then
      expandRels db direction depth rest visited acc queue
    else if visited.contains rel.dstCardKey then
      expandRels db direction depth rest visited acc queue
    else if !(existsByKey db rel.dstCardKey) then
      expandRels db direction depth rest visited acc queue
    else
      expandRels db direction depth rest
        (visited ++ [rel.dstCardKey])
        (acc ++ [⟨rel.dstCardKey, depth + 1, rel.type,
          if rel.isReverse then .backward else .forward⟩])
        (queue ++ [(rel.dstCardKey, depth + 1)])

/-- Outer while-loop of the BFS (src/ops/query.ts lines 40-65). The
`fuel` parameter makes the queue recursion structural; every entry pops
exactly once and entries are enqueued only for newly visited existing
keys, so `db.cards.length + 1` units of fuel drain the queue. -/
def bfsLoop (db : DbState) (direction : GraphDirection)
    (maxDepth : Option Nat) :
    Nat → List (String × Nat) → List String → List RelationGraphNode →
    List RelationGraphNode
  | 0, _, _, acc => acc
  | _ + 1, [], _, acc => acc
  | fuel + 1, (currentKey, currentDepth) :: queueRest, visited, acc =>
    if (match maxDepth with
        | some d => decide (d ≤ currentDepth)
        | none => false) then
      bfsLoop db direction maxDepth fuel queueRest visited acc
    else
      match expandRels db direction currentDepth
          (relationFindByCardKey db.relations currentKey) visited acc queueRest with
      | (v1, a1, q1) => bfsLoop db direction maxDepth fuel q1 v1 a1

/-- Embedding of `getRelationGraph` (src/ops/query.ts lines 24-68):
parse the root key; a missing root row yields the empty list, otherwise
breadth-first traversal from the root with the root pre-visited.
`maxDepth = none` is the `Infinity` default. -/
def getRelationGraph (db : DbState) (fullKey : String)
    (maxDepth : Option Nat) (direction : GraphDirection) :
    Except OpError (List RelationGraphNode) :=
  match parseFullKey fullKey with
  | .error e => .error e
  | .ok rootKey =>
    if !(existsByKey db rootKey) then .ok []
    else .ok (bfsLoop db direction maxDepth (db.cards.length + 1)
      [(rootKey, 0)] [rootKey] [])

/-- What section 4.7 of the specification asserts about an emitted
traversal node `a` of the finished emission list `out`: its card row
exists (orphan edges are skipped), and a stored edge generates it — an
edge into `a.key` whose type is the reported one, whose direction is
forward exactly when the edge is not a reverse mirror, which passes the
direction filter of the traversal, and which departs from the node's
breadth-first parent: the root when `a.depth = 1`, otherwise an emitted
node exactly one level shallower. -/
def nodeWellFormed (db : DbState) (dir : GraphDirection) (rootKey : String)
    (out : List RelationGraphNode) (a : RelationGraphNode) : Prop :=
  existsByKey db a.key = true ∧
  ∃ e ∈ db.relations, e.dstCardKey = a.key ∧
    a.relationType = e.type ∧
    (a.direction = .forward ↔ e.isReverse = false) ∧
    dirSkip dir e = false ∧
    ((a.depth = 1 ∧ e.srcCardKey = rootKey) ∨
      ∃ b ∈ out, b.key = e.srcCardKey ∧ b.depth + 1 = a.depth)

/-- A pending queue entry of the breadth-first loop is either the
initial root entry at depth 0 or corresponds to an already-emitted
node. -/
def queueEntryOk (rootKey : String) (acc : List RelationGraphNode)
    (q : String × Nat) : Prop :=
  (q.2 = 0 ∧ q.1 = rootKey) ∨ ∃ b ∈ acc, b.key = q.1 ∧ b.depth = q.2

/-! ## Store reachability through the repository operations -/

/-- The mirror of a stored edge: endpoints swapped, `isReverse`
negated. An involution. -/
def RelationRow.mirror (e : RelationRow) : RelationRow :=
  ⟨e.type, e.dstCardKey, e.srcCardKey, !e.isReverse⟩

/-- The mirror-rule invariant of section 3 of the specification: every
stored forward edge is accompanied by its reverse mirror, and vice
versa. Because `mirror` is an involution, one closure condition states
both directions. -/
def mirrorClosed (rels : List RelationRow) : Prop :=
  ∀ e ∈ rels, e.mirror ∈ rels

/-- The repository operations that touch the relation table, plus card
upsert (which introduces keys) — the write surface of the store as used
by the operations layer, each inside one store transaction. -/
inductive DbOp where
  | cardUpsert (row : CardRow)
  | cardDelete (key : String)
  | relReplaceForCard (key : String) (rels : List CardRelation)
  | relDeleteByCardKey (key : String)

/-- Transactional application of one repository operation: a failing
`replaceForCard` rolls back to the pre-transaction state. -/
def applyDbOp (db : DbState) : DbOp → DbState
  | .cardUpsert row => upsertCard db row
  | .cardDelete key => deleteCardCascade db key
  | .relReplaceForCard key rels =>
    { db with relations := (replaceForCardTx (cardKeys db) db.relations key rels).1 }
  | .relDeleteByCardKey key =>
    { db with relations := relationDeleteByCardKey db.relations key }

/-- Store states reachable from the fresh store through the repository
operations. -/
inductive ReachableDb : DbState → Prop where
  | init : ReachableDb emptyDb
  | step {db : DbState} (op : DbOp) : ReachableDb db → ReachableDb (applyDbOp db op)

/-! ## Theorems -/

/-- C1: For every safe-write invocation `{dbAction, fileAction,
compensate}`: if `dbAction` throws, the error propagates and `compensate`
is never run (the outcome does not depend on it); if `dbAction` succeeds
and `fileAction` succeeds, `dbAction`'s result is returned; if
`fileAction` throws and `compensate dbResult` succeeds, the original file
error is re-raised; if `compensate` also throws, a `CompensationError`
carrying both the original and the compensation error is raised. -/
theorem safeWriteOperation_contract {α ε : Type} (dbAction : Except ε α)
    (fileAction : Except ε Unit) (compensate : α → Except ε Unit) :
    (∀ e, dbAction = .error e →
      safeWriteOperation dbAction fileAction compensate = .error (.plain e) ∧
      ∀ compensate2 : α → Except ε Unit,
        safeWriteOperation dbAction fileAction compensate =
          safeWriteOperation dbAction fileAction compensate2) ∧
    (∀ r, dbAction = .ok r → fileAction = .ok () →
      safeWriteOperation dbAction fileAction compensate = .ok r) ∧
    (∀ r fe, dbAction = .ok r → fileAction = .error fe →
      compensate r = .ok () →
      safeWriteOperation dbAction fileAction compensate = .error (.plain fe)) ∧
    (∀ r fe ce, dbAction = .ok r → fileAction = .error fe →
      compensate r = .error ce →
      safeWriteOperation dbAction fileAction compensate =
        .error (.compensation fe ce)) := by
  refine ⟨?_, ?_, ?_, ?_⟩
  · intro e he
    constructor
    · simp [safeWriteOperation, he]
    · intro comp2
      simp [safeWriteOperation, he]
  · intro r hdb hf
    simp [safeWriteOperation, hdb, hf]
  · intro r fe hdb hf hc
    simp [safeWriteOperation, hdb, hf, hc]
  · intro r fe ce hdb hf hc
    simp [safeWriteOperation, hdb, hf, hc]

/-- Witness for C1: the four branches at concrete inputs. -/
theorem safeWriteOperation_contract_witness :
    safeWriteOperation (Except.error "db down" : Except String Nat) (.ok ())
      (fun _ => .ok ()) = .error (.plain "db down") ∧
    safeWriteOperation (Except.ok 7 : Except String Nat) (.ok ())
      (fun _ => .ok ()) = .ok 7 ∧
    safeWriteOperation (Except.ok 7 : Except String Nat) (.error "disk full")
      (fun _ => .ok ()) = .error (.plain "disk full") ∧
    safeWriteOperation (Except.ok 7 : Except String Nat) (.error "disk full")
      (fun _ => .error "rollback failed") =
      .error (.compensation "disk full" "rollback failed") :=
  ⟨((safeWriteOperation_contract _ _ _).1 "db down" rfl).1,
   (safeWriteOperation_contract _ _ _).2.1 7 rfl rfl,
   (safeWriteOperation_contract _ _ _).2.2.1 7 "disk full" rfl rfl rfl,
   (safeWriteOperation_contract _ _ _).2.2.2 7 "disk full" "rollback failed"
     rfl rfl rfl⟩

/-- Helper: a successful attempt stops the retry loop at once. -/
theorem withRetryAux_ok {α : Type} (f : Nat → Except String α)
    (base maxD attempt remaining : Nat) {v : α} (h : f attempt = .ok v) :
    withRetryAux f base maxD attempt remaining = ([], .ok v) := by
  cases remaining <;> simp [withRetryAux, h]

/-- Helper: a non-busy error stops the retry loop at once. -/
theorem withRetryAux_nonbusy {α : Type} (f : Nat → Except String α)
    (base maxD attempt remaining : Nat) {e : String}
    (h : f attempt = .error e) (hb : isSqliteBusy e = false) :
    withRetryAux f base maxD attempt remaining = ([], .error e) := by
  cases remaining <;> simp [withRetryAux, h, hb]

/-- Helper: a busy error with retries remaining sleeps
`min (base * 2 ^ attempt) maxD` and recurses at the next attempt. -/
theorem withRetryAux_busy_step {α : Type} (f : Nat → Except String α)
    (base maxD attempt remaining : Nat) {e : String}
    (h : f attempt = .error e) (hb : isSqliteBusy e = true) :
    withRetryAux f base maxD attempt (remaining + 1) =
      (min (base * 2 ^ attempt) maxD ::
        (withRetryAux f base maxD (attempt + 1) remaining).1,
       (withRetryAux f base maxD (attempt + 1) remaining).2) := by
  simp [withRetryAux, h, hb]

/-- Helper: a busy error with no retries remaining propagates. -/
theorem withRetryAux_busy_last {α : Type} (f : Nat → Except String α)
    (base maxD attempt : Nat) {e : String}
    (h : f attempt = .error e) :
    withRetryAux f base maxD attempt 0 = ([], .error e) := by
  simp [withRetryAux, h]

/-- Helper: delay-list decomposition used when shifting the attempt
counter by one. -/
theorem delayRangeShift (base maxD attempt k : Nat) :
    (List.range (k + 1)).map (fun n => min (base * 2 ^ (attempt + n)) maxD) =
      min (base * 2 ^ attempt) maxD ::
        (List.range k).map (fun n => min (base * 2 ^ (attempt + 1 + n)) maxD) := by
  rw [List.range_succ_eq_map, List.map_cons, List.map_map]
  refine congrArg₂ _ (by simp) (List.map_congr_left ?_)
  intro n _
  have h : attempt + 1 + n = attempt + (n + 1) := by omega
  simp [Function.comp, h, Nat.succ_eq_add_one]

/-- Helper: if the first `k` attempts starting at `attempt` raise busy
errors and attempt `attempt + k` succeeds within the remaining budget,
the loop returns the success value after `k` back-off sleeps. -/
theorem withRetryAux_busy_then_ok {α : Type} (f : Nat → Except String α)
    (base maxD : Nat) :
    ∀ k attempt remaining, k ≤ remaining →
    (∀ n, n < k → ∃ msg, f (attempt + n) = .error msg ∧ isSqliteBusy msg = true) →
    ∀ v, f (attempt + k) = .ok v →
    withRetryAux f base maxD attempt remaining =
      ((List.range k).map (fun n => min (base * 2 ^ (attempt + n)) maxD), .ok v) := by
  intro k
  induction k with
  | zero =>
    intro attempt remaining _ _ v hv
    simpa using withRetryAux_ok f base maxD attempt remaining (by simpa using hv)
  | succ k ih =>
    intro attempt remaining hle hbusy v hv
    obtain ⟨r, rfl⟩ : ∃ r, remaining = r + 1 := ⟨remaining - 1, by omega⟩
    obtain ⟨msg, hmsg, hb⟩ := hbusy 0 (by omega)
    rw [withRetryAux_busy_step f base maxD attempt r (by simpa using hmsg) hb]
    rw [ih (attempt + 1) r (by omega)
      (fun n hn => by
        obtain ⟨m, hm, hmb⟩ := hbusy (n + 1) (by omega)
        exact ⟨m, by rw [show attempt + 1 + n = attempt + (n + 1) by omega]; exact hm, hmb⟩)
      v (by rw [show attempt + 1 + k = attempt + (k + 1) by omega]; exact hv)]
    rw [delayRangeShift]

/-- Helper: if the first `k` attempts raise busy errors and attempt
`attempt + k` raises a non-busy error within budget, the loop propagates
that error after `k` sleeps. -/
theorem withRetryAux_busy_then_nonbusy {α : Type} (f : Nat → Except String α)
    (base maxD : Nat) :
    ∀ k attempt remaining, k ≤ remaining →
    (∀ n, n < k → ∃ msg, f (attempt + n) = .error msg ∧ isSqliteBusy msg = true) →
    ∀ e, f (attempt + k) = .error e → isSqliteBusy e = false →
    withRetryAux f base maxD attempt remaining =
      ((List.range k).map (fun n => min (base * 2 ^ (attempt + n)) maxD), .error e) := by
  intro k
  induction k with
  | zero =>
    intro attempt remaining _ _ e he hb
    simpa using withRetryAux_nonbusy f base maxD attempt remaining
      (by simpa using he) hb
  | succ k ih =>
    intro attempt remaining hle hbusy e he hb
    obtain ⟨r, rfl⟩ : ∃ r, remaining = r + 1 := ⟨remaining - 1, by omega⟩
    obtain ⟨msg, hmsg, hmb⟩ := hbusy 0 (by omega)
    rw [withRetryAux_busy_step f base maxD attempt r (by simpa using hmsg) hmb]
    rw [ih (attempt + 1) r (by omega)
      (fun n hn => by
        obtain ⟨m, hm, hmb2⟩ := hbusy (n + 1) (by omega)
        exact ⟨m, by rw [show attempt + 1 + n = attempt + (n + 1) by omega]; exact hm, hmb2⟩)
      e (by rw [show attempt + 1 + k = attempt + (k + 1) by omega]; exact he) hb]
    rw [delayRangeShift]

/-- Helper: if every attempt in the budget raises a busy error, the loop
sleeps before each retry and finally propagates the last busy error. -/
theorem withRetryAux_all_busy {α : Type} (f : Nat → Except String α)
    (base maxD : Nat) :
    ∀ remaining attempt,
    (∀ n, n ≤ remaining → ∃ msg, f (attempt + n) = .error msg ∧ isSqliteBusy msg = true) →
    ∃ msg, f (attempt + remaining) = .error msg ∧
      withRetryAux f base maxD attempt remaining =
        ((List.range remaining).map (fun n => min (base * 2 ^ (attempt + n)) maxD),
         .error msg) := by
  intro remaining
  induction remaining with
  | zero =>
    intro attempt h
    obtain ⟨msg, hm, _⟩ := h 0 (by omega)
    exact ⟨msg, by simpa using hm,
      by simpa using withRetryAux_busy_last f base maxD attempt (by simpa using hm)⟩
  | succ r ih =>
    intro attempt h
    obtain ⟨msg0, hm0, hb0⟩ := h 0 (by omega)
    obtain ⟨msg, hm, haux⟩ := ih (attempt + 1)
      (fun n hn => by
        obtain ⟨m, hm2, hb2⟩ := h (n + 1) (by omega)
        exact ⟨m, by rw [show attempt + 1 + n = attempt + (n + 1) by omega]; exact hm2, hb2⟩)
    refine ⟨msg, by rw [show attempt + (r + 1) = attempt + 1 + r by omega]; exact hm, ?_⟩
    rw [withRetryAux_busy_step f base maxD attempt r (by simpa using hm0) hb0, haux,
      delayRangeShift]

/-- C7: `withRetry` with options `{maxRetries, baseDelayMs, maxDelayMs}`
(defaults 3, 50, 2000): an error whose message does not contain
"database is locked" propagates immediately without any retry; a busy
error triggers up to `maxRetries` additional attempts, sleeping
`min (baseDelayMs * 2 ^ n, maxDelayMs)` before retry `n`; after
exhausting all retries the last busy error propagates; if any attempt
succeeds its value is returned. The wrapped function is the family of
its per-attempt outcomes; the returned list is the sleep trace. -/
theorem withRetry_contract {α : Type} (f : Nat → Except String α)
    (maxRetries base maxD : Nat) :
    (defaultMaxRetries = 3 ∧ defaultBaseDelayMs = 50 ∧ defaultMaxDelayMs = 2000 ∧
      ∀ g : Nat → Except String α, withRetryDefaults g = withRetry g 3 50 2000) ∧
    (∀ k v, k ≤ maxRetries →
      (∀ n, n < k → ∃ msg, f n = .error msg ∧ isSqliteBusy msg = true) →
      f k = .ok v →
      withRetry f maxRetries base maxD =
        ((List.range k).map (fun n => min (base * 2 ^ n) maxD), .ok v)) ∧
    (∀ k e, k ≤ maxRetries →
      (∀ n, n < k → ∃ msg, f n = .error msg ∧ isSqliteBusy msg = true) →
      f k = .error e → isSqliteBusy e = false →
      withRetry f maxRetries base maxD =
        ((List.range k).map (fun n => min (base * 2 ^ n) maxD), .error e)) ∧
    ((∀ n, n ≤ maxRetries → ∃ msg, f n = .error msg ∧ isSqliteBusy msg = true) →
      ∃ msg, f maxRetries = .error msg ∧
        withRetry f maxRetries base maxD =
          ((List.range maxRetries).map (fun n => min (base * 2 ^ n) maxD),
           .error msg)) := by
  refine ⟨⟨rfl, rfl, rfl, fun g => rfl⟩, ?_, ?_, ?_⟩
  · intro k v hk hbusy hv
    have := withRetryAux_busy_then_ok f base maxD k 0 maxRetries hk
      (fun n hn => by simpa using hbusy n hn) v (by simpa using hv)
    simpa using this
  · intro k e hk hbusy he hb
    have := withRetryAux_busy_then_nonbusy f base maxD k 0 maxRetries hk
      (fun n hn => by simpa using hbusy n hn) e (by simpa using he) hb
    simpa using this
  · intro hbusy
    have := withRetryAux_all_busy f base maxD maxRetries 0
      (fun n hn => by simpa using hbusy n hn)
    simpa using this

/-- Witness for C7: a function that is busy on attempts 0 and 1 and
succeeds on attempt 2, with the default options. -/
theorem withRetry_contract_witness :
    withRetry
      (fun n => if n < 2 then Except.error "database is locked" else Except.ok 42)
      3 50 2000 = ([50, 100], .ok 42) := by
  have h := (withRetry_contract
    (fun n => if n < 2 then Except.error "database is locked" else Except.ok 42)
    3 50 2000).2.1 2 42 (by omega)
    (fun n hn => ⟨"database is locked", by simp [hn], by decide⟩)
    (by simp)
  simpa using h

/-- Helper: `mirror` is an involution. -/
theorem mirror_mirror (e : RelationRow) : e.mirror.mirror = e := by
  simp [RelationRow.mirror]

/-- Helper: a successful relation insert passed the FK check and
appended the row. -/
theorem insertRelation_inserted (cardsList : List String)
    (st st1 : List RelationRow) (e : RelationRow)
    (h : insertRelation cardsList st e = .inserted st1) :
    (cardsList.contains e.srcCardKey && cardsList.contains e.dstCardKey) = true ∧
    st1 = st ++ [e] := by
  unfold insertRelation at h
  split at h
  · exact absurd h (by simp)
  · split at h
    · exact absurd h (by simp)
    · rename_i hfk _
      simp only [Bool.not_eq_true', Bool.not_eq_false] at hfk
      cases h
      exact ⟨hfk, rfl⟩

/-- Helper: the delete phase of `replaceForCard` preserves the mirror
closure: the two filters remove exactly the matched forward-mirror pairs
owned by the card. -/
theorem mirrorClosed_deleteOwned (st : List RelationRow) (key : String)
    (h : mirrorClosed st) : mirrorClosed (deleteOwnedRelations st key) := by
  intro e he
  simp only [deleteOwnedRelations, List.mem_filter, Bool.not_eq_eq_eq_not,
    Bool.not_true, Bool.and_eq_false_imp, beq_iff_eq, Bool.not_eq_false,
    Bool.not_eq_true] at he ⊢
  obtain ⟨⟨he_st, h1⟩, h2⟩ := he
  refine ⟨⟨h e he_st, ?_⟩, ?_⟩
  · intro hsrc
    simp only [RelationRow.mirror] at hsrc ⊢
    have := h2 hsrc
    simp [this]
  · intro hdst
    simp only [RelationRow.mirror] at hdst ⊢
    have := h1 hdst
    simp [this]

/-- Helper: appending a forward edge together with its mirror preserves
the mirror closure. -/
theorem mirrorClosed_append_pair (st : List RelationRow) (key : String)
    (rel : CardRelation) (h : mirrorClosed st) :
    mirrorClosed (st ++ [forwardRow key rel, mirrorRow key rel]) := by
  intro e he
  rcases List.mem_append.mp he with hst | hpair
  · exact List.mem_append.mpr (.inl (h e hst))
  · simp only [List.mem_cons, List.mem_singleton, List.not_mem_nil] at hpair
    rcases hpair with rfl | rfl | hfalse
    · refine List.mem_append.mpr (.inr ?_)
      simp [forwardRow, mirrorRow, RelationRow.mirror]
    · refine List.mem_append.mpr (.inr ?_)
      simp [forwardRow, mirrorRow, RelationRow.mirror]
    · exact absurd hfalse (by simp)

/-- Helper: a successful pass of the relation insert loop preserves the
mirror closure — a relation is either skipped whole (FK violation on the
forward insert; a mirror-side FK violation is impossible because both
inserts check the same pair of card keys) or contributes its
forward-mirror pair. -/
theorem mirrorClosed_replaceRelLoop (cardsList : List String) (key : String) :
    ∀ (rels : List CardRelation) (st st1 : List RelationRow),
    mirrorClosed st →
    replaceRelLoop cardsList key rels st = (st1, none) →
    mirrorClosed st1 := by
  intro rels
  induction rels with
  | nil =>
    intro st st1 h hrun
    simp only [replaceRelLoop, Prod.mk.injEq] at hrun
    exact hrun.1 ▸ h
  | cons rel rest ih =>
    intro st st1 h hrun
    simp only [replaceRelLoop] at hrun
    split at hrun
    · exact ih st st1 h hrun
    · simp at hrun
    · rename_i stf hfwd
      obtain ⟨hfk, rfl⟩ := insertRelation_inserted cardsList st _ _ hfwd
      split at hrun
      · rename_i hmir
        exfalso
        unfold insertRelation at hmir
        split at hmir
        · rename_i hguard
          simp only [forwardRow, mirrorRow, Bool.not_eq_true',
            Bool.and_eq_false_iff, Bool.and_eq_true] at hfk hguard
          rcases hguard with hg | hg
          · rw [hfk.2] at hg
            simp at hg
          · rw [hfk.1] at hg
            simp at hg
        · split at hmir <;> simp at hmir
      · simp at hrun
      · rename_i stm hmir
        obtain ⟨_, rfl⟩ := insertRelation_inserted cardsList _ _ _ hmir
        rw [List.append_assoc] at hrun
        exact ih _ st1 (mirrorClosed_append_pair st key rel h) hrun

/-- Helper: deleting every edge that touches a key (either endpoint)
preserves the mirror closure. -/
theorem mirrorClosed_filter_both (st : List RelationRow) (key : String)
    (h : mirrorClosed st) :
    mirrorClosed (st.filter (fun r => r.srcCardKey != key && r.dstCardKey != key)) := by
  intro e he
  simp only [List.mem_filter, Bool.and_eq_true, bne_iff_ne, ne_eq] at he ⊢
  obtain ⟨he_st, h1, h2⟩ := he
  exact ⟨h e he_st, by simpa [RelationRow.mirror] using h2,
    by simpa [RelationRow.mirror] using h1⟩

/-- Helper: `deleteByCardKey`'s two deletes equal one both-endpoint
filter. -/
theorem relationDeleteByCardKey_eq (st : List RelationRow) (key : String) :
    relationDeleteByCardKey st key =
      st.filter (fun r => r.srcCardKey != key && r.dstCardKey != key) := by
  simp [relationDeleteByCardKey, List.filter_filter, Bool.and_comm]

/-- C3: Mirror-rule invariant — in every store state reachable through
the repository operations (`replaceForCard`, relation
`deleteByCardKey`, card `deleteByKey` with cascade, plus card upserts),
every stored edge `(type, A, B, isReverse=false)` is accompanied by its
mirror `(type, B, A, isReverse=true)` and every reverse edge by its
forward original: the relation table is closed under `mirror`. -/
theorem reachable_mirror_invariant (db : DbState) (h : ReachableDb db) :
    mirrorClosed db.relations := by
  induction h with
  | init =>
    intro e he
    simp [emptyDb] at he
  | @step db0 op _ ih =>
    cases op with
    | cardUpsert row =>
      have heq : (applyDbOp db0 (.cardUpsert row)).relations = db0.relations := rfl
      rw [heq]
      exact ih
    | cardDelete key =>
      show mirrorClosed (deleteCardCascade db0 key).relations
      exact mirrorClosed_filter_both db0.relations key ih
    | relReplaceForCard key rels =>
      show mirrorClosed (replaceForCardTx (cardKeys db0) db0.relations key rels).1
      rw [replaceForCardTx]
      cases hraw : replaceForCardRaw (cardKeys db0) db0.relations key rels with
      | mk st1 err =>
        cases err with
        | none =>
          exact mirrorClosed_replaceRelLoop (cardKeys db0) key rels _ st1
            (mirrorClosed_deleteOwned db0.relations key ih) hraw
        | some e =>
          exact ih
    | relDeleteByCardKey key =>
      show mirrorClosed (relationDeleteByCardKey db0.relations key)
      rw [relationDeleteByCardKey_eq]
      exact mirrorClosed_filter_both db0.relations key ih

/-- Witness for C3: the store reached by creating two cards and
declaring one relation satisfies the mirror closure. -/
theorem reachable_mirror_invariant_witness :
    mirrorClosed (applyDbOp (applyDbOp (applyDbOp emptyDb
      (.cardUpsert ⟨"a", "A", .draft, none, "", "/cards/a.card.md", "t0"⟩))
      (.cardUpsert ⟨"b", "B", .draft, none, "", "/cards/b.card.md", "t0"⟩))
      (.relReplaceForCard "a" [⟨"depends-on", "b"⟩])).relations :=
  reachable_mirror_invariant _
    (ReachableDb.step _ (ReachableDb.step _ (ReachableDb.step _ ReachableDb.init)))

/-- Helper: membership in the delete phase's survivor set. -/
theorem mem_deleteOwned (st : List RelationRow) (key : String) (e : RelationRow) :
    e ∈ deleteOwnedRelations st key ↔
      e ∈ st ∧ ¬(e.srcCardKey = key ∧ e.isReverse = false) ∧
        ¬(e.dstCardKey = key ∧ e.isReverse = true) := by
  simp only [deleteOwnedRelations, List.mem_filter, Bool.not_eq_eq_eq_not,
    Bool.not_true, Bool.and_eq_false_iff, Bool.not_eq_false', beq_eq_false_iff_ne,
    ne_eq, beq_iff_eq, Bool.not_eq_true, and_assoc]
  constructor
  · rintro ⟨hmem, h1, h2⟩
    refine ⟨hmem, ?_, ?_⟩
    · rintro ⟨hs, hr⟩
      rcases h1 with h | h
      · exact h hs
      · rw [hr] at h
        simp at h
    · rintro ⟨hd, hr⟩
      rcases h2 with h | h
      · exact h hd
      · rw [hr] at h
        simp at h
  · rintro ⟨hmem, h1, h2⟩
    refine ⟨hmem, ?_, ?_⟩
    · by_cases hs : e.srcCardKey = key
      · right
        rcases Bool.eq_false_or_eq_true e.isReverse with h | h
        · simpa using h
        · exact absurd ⟨hs, h⟩ h1
      · exact .inl hs
    · by_cases hd : e.dstCardKey = key
      · right
        rcases Bool.eq_false_or_eq_true e.isReverse with h | h
        · exact absurd ⟨hd, h⟩ h2
        · exact h
      · exact .inl hd

/-- Helper: the insert loop never removes a row, whatever its outcome. -/
theorem replaceRelLoop_mono (cl : List String) (key : String) :
    ∀ (rels : List CardRelation) (st : List RelationRow) (e : RelationRow),
    e ∈ st → e ∈ (replaceRelLoop cl key rels st).1 := by
  intro rels
  induction rels with
  | nil =>
    intro st e he
    simpa [replaceRelLoop] using he
  | cons rel rest ih =>
    intro st e he
    simp only [replaceRelLoop]
    split
    · exact ih st e he
    · simpa using he
    · rename_i stf hfwd
      obtain ⟨_, rfl⟩ := insertRelation_inserted cl st _ _ hfwd
      split
      · exact ih _ e (List.mem_append.mpr (.inl he))
      · exact List.mem_append.mpr (.inl he)
      · rename_i stm hmir
        obtain ⟨_, rfl⟩ := insertRelation_inserted cl _ _ _ hmir
        exact ih _ e (List.mem_append.mpr (.inl (List.mem_append.mpr (.inl he))))

/-- Helper: every row in the insert loop's final state was already
present or is the forward or mirror row of one of the declared
relations. -/
theorem replaceRelLoop_mem (cl : List String) (key : String) :
    ∀ (rels : List CardRelation) (st st1 : List RelationRow)
      (err : Option RelUniqueErr),
    replaceRelLoop cl key rels st = (st1, err) →
    ∀ e ∈ st1, e ∈ st ∨ ∃ r ∈ rels, e = forwardRow key r ∨ e = mirrorRow key r := by
  intro rels
  induction rels with
  | nil =>
    intro st st1 err hrun e he
    simp only [replaceRelLoop, Prod.mk.injEq] at hrun
    exact .inl (hrun.1 ▸ he)
  | cons rel rest ih =>
    intro st st1 err hrun e he
    simp only [replaceRelLoop] at hrun
    split at hrun
    · rcases ih st st1 err hrun e he with h | ⟨r, hr, h⟩
      · exact .inl h
      · exact .inr ⟨r, List.mem_cons_of_mem rel hr, h⟩
    · cases hrun
      exact .inl he
    · rename_i stf hfwd
      obtain ⟨_, rfl⟩ := insertRelation_inserted cl st _ _ hfwd
      split at hrun
      · rcases ih _ st1 err hrun e he with h | ⟨r, hr, h⟩
        · rcases List.mem_append.mp h with h | h
          · exact .inl h
          · exact .inr ⟨rel, List.mem_cons_self rel rest, .inl (List.mem_singleton.mp h)⟩
        · exact .inr ⟨r, List.mem_cons_of_mem rel hr, h⟩
      · cases hrun
        rcases List.mem_append.mp he with h | h
        · exact .inl h
        · exact .inr ⟨rel, List.mem_cons_self rel rest, .inl (List.mem_singleton.mp h)⟩
      · rename_i stm hmir
        obtain ⟨_, rfl⟩ := insertRelation_inserted cl _ _ _ hmir
        rw [List.append_assoc] at hrun
        rcases ih _ st1 err hrun e he with h | ⟨r, hr, h⟩
        · rcases List.mem_append.mp h with h | h
          · exact .inl h
          · simp only [List.cons_append, List.nil_append, List.mem_cons,
              List.mem_singleton, List.not_mem_nil, or_false] at h
            rcases h with rfl | rfl
            · exact .inr ⟨rel, List.mem_cons_self rel rest, .inl rfl⟩
            · exact .inr ⟨rel, List.mem_cons_self rel rest, .inr rfl⟩
        · exact .inr ⟨r, List.mem_cons_of_mem rel hr, h⟩

/-- C4: Frame property of `RelationRepo.replaceForCard(key, relations)`:
it deletes only edges owned by the card — forward edges with
`srcCardKey = key, isReverse = false` and mirror edges with
`dstCardKey = key, isReverse = true` — before inserting the new edges
and their mirrors; for every other card `C`, a forward edge
`(t, C, key, false)` declared by `C` pointing at `key` and its mirror
`(t, key, C, true)` are unchanged by the call. -/
theorem replaceForCard_frame (cl : List String) (st : List RelationRow)
    (key : String) (rels : List CardRelation) :
    (∀ e ∈ st, e ∉ (replaceForCardTx cl st key rels).1 →
      (e.srcCardKey = key ∧ e.isReverse = false) ∨
      (e.dstCardKey = key ∧ e.isReverse = true)) ∧
    (∀ C t, C ≠ key →
      ((⟨t, C, key, false⟩ : RelationRow) ∈ (replaceForCardTx cl st key rels).1 ↔
        (⟨t, C, key, false⟩ : RelationRow) ∈ st) ∧
      ((⟨t, key, C, true⟩ : RelationRow) ∈ (replaceForCardTx cl st key rels).1 ↔
        (⟨t, key, C, true⟩ : RelationRow) ∈ st)) := by
  unfold replaceForCardTx
  cases hraw : replaceForCardRaw cl st key rels with
  | mk st1 err =>
    cases err with
    | some e =>
      exact ⟨fun e he hn => absurd he hn, fun C t _ => ⟨Iff.rfl, Iff.rfl⟩⟩
    | none =>
      unfold replaceForCardRaw at hraw
      constructor
      · intro e he hn
        by_contra hcon
        push_neg at hcon
        have hsurv : e ∈ deleteOwnedRelations st key := by
          rw [mem_deleteOwned]
          refine ⟨he, ?_, ?_⟩
          · rintro ⟨hs, hr⟩
            exact absurd (hcon.1 hs) (by simp [hr])
          · rintro ⟨hd, hr⟩
            exact absurd (hcon.2 hd) (by simp [hr])
        have := replaceRelLoop_mono cl key rels (deleteOwnedRelations st key) e hsurv
        rw [hraw] at this
        exact hn this
      · intro C t hC
        constructor
        · constructor
          · intro hmem
            rcases replaceRelLoop_mem cl key rels _ st1 none hraw _ hmem with h | ⟨r, _, h | h⟩
            · exact ((mem_deleteOwned st key _).mp h).1
            · exact absurd (congrArg RelationRow.srcCardKey h) (by simpa using hC)
            · exact absurd (congrArg RelationRow.isReverse h) (by simp [mirrorRow])
          · intro hmem
            have hsurv : (⟨t, C, key, false⟩ : RelationRow) ∈ deleteOwnedRelations st key := by
              rw [mem_deleteOwned]
              exact ⟨hmem, by rintro ⟨hs, _⟩; exact hC hs, by rintro ⟨_, hr⟩; simp at hr⟩
            have := replaceRelLoop_mono cl key rels (deleteOwnedRelations st key) _ hsurv
            rwa [hraw] at this
        · constructor
          · intro hmem
            rcases replaceRelLoop_mem cl key rels _ st1 none hraw _ hmem with h | ⟨r, _, h | h⟩
            · exact ((mem_deleteOwned st key _).mp h).1
            · exact absurd (congrArg RelationRow.isReverse h) (by simp [forwardRow])
            · exact absurd (congrArg RelationRow.dstCardKey h) (by simpa [mirrorRow] using hC)
          · intro hmem
            have hsurv : (⟨t, key, C, true⟩ : RelationRow) ∈ deleteOwnedRelations st key := by
              rw [mem_deleteOwned]
              exact ⟨hmem, by rintro ⟨_, hr⟩; simp at hr, by rintro ⟨hd, _⟩; exact hC hd⟩
            have := replaceRelLoop_mono cl key rels (deleteOwnedRelations st key) _ hsurv
            rwa [hraw] at this

/-- Witness for C4: replacing the relations of card `k` keeps card `a`'s
forward edge into `k`, and the old forward edge of `k` that disappeared
was indeed owned by `k`. -/
theorem replaceForCard_frame_witness :
    ((⟨"t", "a", "k", false⟩ : RelationRow) ∈
      (replaceForCardTx ["a", "b", "k"]
        [⟨"t", "a", "k", false⟩, ⟨"t", "k", "a", true⟩,
         ⟨"t", "k", "b", false⟩, ⟨"t", "b", "k", true⟩] "k" [⟨"t2", "b"⟩]).1) ∧
    (((⟨"t", "k", "b", false⟩ : RelationRow).srcCardKey = "k" ∧
        (⟨"t", "k", "b", false⟩ : RelationRow).isReverse = false) ∨
      ((⟨"t", "k", "b", false⟩ : RelationRow).dstCardKey = "k" ∧
        (⟨"t", "k", "b", false⟩ : RelationRow).isReverse = true)) :=
  ⟨((replaceForCard_frame ["a", "b", "k"]
      [⟨"t", "a", "k", false⟩, ⟨"t", "k", "a", true⟩,
       ⟨"t", "k", "b", false⟩, ⟨"t", "b", "k", true⟩] "k" [⟨"t2", "b"⟩]).2
      "a" "t" (by decide)).1.mpr (by decide),
   (replaceForCard_frame ["a", "b", "k"]
      [⟨"t", "a", "k", false⟩, ⟨"t", "k", "a", true⟩,
       ⟨"t", "k", "b", false⟩, ⟨"t", "b", "k", true⟩] "k" [⟨"t2", "b"⟩]).1
      ⟨"t", "k", "b", false⟩ (by decide) (by decide)⟩

/-- Helper: a relation insert cannot report a FK violation when both
endpoint keys exist. -/
theorem insertRelation_fk_contra (cl : List String) (st : List RelationRow)
    (e : RelationRow) (h : insertRelation cl st e = .fkViolation)
    (hs : cl.contains e.srcCardKey = true) (hd : cl.contains e.dstCardKey = true) :
    False := by
  unfold insertRelation at h
  split at h
  · rename_i hg
    simp only [Bool.not_eq_true', Bool.and_eq_false_iff] at hg
    rcases hg with hg | hg
    · rw [hs] at hg
      simp at hg
    · rw [hd] at hg
      simp at hg
  · split at h <;> simp at h

/-- Helper: a successful relation insert certifies the absence of a
`(type, src, dst)` duplicate. -/
theorem insertRelation_inserted_nodup (cl : List String) (st st1 : List RelationRow)
    (e : RelationRow) (h : insertRelation cl st e = .inserted st1) :
    st.any (fun r => r.type == e.type && r.srcCardKey == e.srcCardKey &&
      r.dstCardKey == e.dstCardKey) = false := by
  unfold insertRelation at h
  split at h
  · simp at h
  · split at h
    · simp at h
    · rename_i hdup
      simpa using hdup

/-- Helper: the insert loop re-throws a UNIQUE error whenever some
declared relation collides with an edge already keyed
`(type, cardKey, target)` in the table — the unique index ignores
`isReverse`, so a stored mirror collides with a new forward edge. -/
theorem replaceRelLoop_collision (cl : List String) (key : String) :
    ∀ (rels : List CardRelation) (st : List RelationRow) (r : CardRelation),
    r ∈ rels →
    (∃ m ∈ st, m.type = r.type ∧ m.srcCardKey = key ∧ m.dstCardKey = r.target) →
    cl.contains key = true → cl.contains r.target = true →
    ∃ st1 e, replaceRelLoop cl key rels st = (st1, some e) := by
  intro rels
  induction rels with
  | nil =>
    intro st r hr
    simp at hr
  | cons rel rest ih =>
    intro st r hr hm hck hct
    rcases List.mem_cons.mp hr with rfl | hrest
    · simp only [replaceRelLoop]
      split
      · rename_i hfk
        exact absurd (insertRelation_fk_contra cl st _ hfk hck hct) (fun h => h)
      · exact ⟨_, _, rfl⟩
      · rename_i stf hins
        exfalso
        have hnodup := insertRelation_inserted_nodup cl st stf _ hins
        obtain ⟨m, hmem, ht, hs, hd⟩ := hm
        have : st.any (fun x => x.type == (forwardRow key r).type &&
            x.srcCardKey == (forwardRow key r).srcCardKey &&
            x.dstCardKey == (forwardRow key r).dstCardKey) = true :=
          List.any_eq_true.mpr ⟨m, hmem, by simp [forwardRow, ht, hs, hd]⟩
        rw [hnodup] at this
        exact Bool.false_ne_true this
    · simp only [replaceRelLoop]
      split
      · exact ih st r hrest hm hck hct
      · exact ⟨_, _, rfl⟩
      · rename_i stf hfwd
        obtain ⟨_, rfl⟩ := insertRelation_inserted cl st _ _ hfwd
        have hm1 : ∃ m ∈ st ++ [forwardRow key rel],
            m.type = r.type ∧ m.srcCardKey = key ∧ m.dstCardKey = r.target := by
          obtain ⟨m, hmem, hprop⟩ := hm
          exact ⟨m, List.mem_append.mpr (.inl hmem), hprop⟩
        split
        · exact ih _ r hrest hm1 hck hct
        · exact ⟨_, _, rfl⟩
        · rename_i stm hmir
          obtain ⟨_, rfl⟩ := insertRelation_inserted cl _ _ _ hmir
          rw [List.append_assoc]
          refine ih _ r hrest ?_ hck hct
          obtain ⟨m, hmem, hprop⟩ := hm
          exact ⟨m, List.mem_append.mpr (.inl hmem), hprop⟩

/-- Helper: the insert loop re-throws a UNIQUE error whenever some
declared relation targets the owning key itself and the table holds no
`(key, key)` edge yet — the relation's own forward insert collides with
its mirror insert. -/
theorem replaceRelLoop_self (cl : List String) (key : String) :
    ∀ (rels : List CardRelation) (st : List RelationRow),
    (∃ r ∈ rels, r.target = key) →
    cl.contains key = true →
    (∀ m ∈ st, ¬(m.srcCardKey = key ∧ m.dstCardKey = key)) →
    ∃ st1 e, replaceRelLoop cl key rels st = (st1, some e) := by
  intro rels
  induction rels with
  | nil =>
    intro st hr
    simp at hr
  | cons rel rest ih =>
    intro st hr hck hno
    by_cases hself : rel.target = key
    · simp only [replaceRelLoop]
      split
      · rename_i hfk
        exact absurd (insertRelation_fk_contra cl st _ hfk hck (hself ▸ hck)) (fun h => h)
      · exact ⟨_, _, rfl⟩
      · rename_i stf hfwd
        obtain ⟨_, rfl⟩ := insertRelation_inserted cl st _ _ hfwd
        split
        · rename_i hmfk
          exact absurd (insertRelation_fk_contra cl _ _ hmfk
            (by simpa [mirrorRow, hself] using hck) (by simpa [mirrorRow] using hck))
            (fun h => h)
        · exact ⟨_, _, rfl⟩
        · rename_i stm hmir
          exfalso
          have hnodup := insertRelation_inserted_nodup cl _ stm _ hmir
          have : (st ++ [forwardRow key rel]).any
              (fun x => x.type == (mirrorRow key rel).type &&
                x.srcCardKey == (mirrorRow key rel).srcCardKey &&
                x.dstCardKey == (mirrorRow key rel).dstCardKey) = true :=
            List.any_eq_true.mpr ⟨forwardRow key rel,
              List.mem_append.mpr (.inr (List.mem_singleton.mpr rfl)),
              by simp [forwardRow, mirrorRow, hself]⟩
          rw [hnodup] at this
          exact Bool.false_ne_true this
    · have hrest : ∃ r ∈ rest, r.target = key := by
        obtain ⟨r, hrmem, hrt⟩ := hr
        rcases List.mem_cons.mp hrmem with rfl | h
        · exact absurd hrt hself
        · exact ⟨r, h, hrt⟩
      simp only [replaceRelLoop]
      split
      · exact ih st hrest hck hno
      · exact ⟨_, _, rfl⟩
      · rename_i stf hfwd
        obtain ⟨_, rfl⟩ := insertRelation_inserted cl st _ _ hfwd
        have hno1 : ∀ m ∈ st ++ [forwardRow key rel],
            ¬(m.srcCardKey = key ∧ m.dstCardKey = key) := by
          intro m hmem
          rcases List.mem_append.mp hmem with h | h
          · exact hno m h
          · rw [List.mem_singleton.mp h]
            rintro ⟨_, hd⟩
            exact hself hd
        split
        · exact ih _ hrest hck hno1
        · exact ⟨_, _, rfl⟩
        · rename_i stm hmir
          obtain ⟨_, rfl⟩ := insertRelation_inserted cl _ _ _ hmir
          rw [List.append_assoc]
          refine ih _ hrest hck ?_
          intro m hmem
          rcases List.mem_append.mp hmem with h | h
          · exact hno m h
          · simp only [List.cons_append, List.nil_append, List.mem_cons,
              List.mem_singleton, List.not_mem_nil, or_false] at h
            rcases h with rfl | rfl
            · rintro ⟨_, hd⟩
              exact hself hd
            · rintro ⟨hs, _⟩
              exact hself hs

/-- Helper: the delete phase leaves no `(key, key)` self edges — a
forward self edge matches the first filter, a reverse one the second. -/
theorem deleteOwned_no_self (st : List RelationRow) (key : String) :
    ∀ m ∈ deleteOwnedRelations st key,
      ¬(m.srcCardKey = key ∧ m.dstCardKey = key) := by
  intro m hm ⟨hs, hd⟩
  rw [mem_deleteOwned] at hm
  rcases Bool.eq_false_or_eq_true m.isReverse with h | h
  · exact hm.2.2 ⟨hd, h⟩
  · exact hm.2.1 ⟨hs, h⟩

/-- C10: Reciprocal same-type relations are impossible. Once the store
holds the mirror `(t, B, A, isReverse=true)` of card A's forward edge
`(t, A, B)`, any `replaceForCard(B, rels)` whose declared relations
contain `{t, target: A}` fails with a UNIQUE error (type `RelUniqueErr`,
never the skippable FK violation), and the whole transactional write
leaves the relation table unchanged. -/
theorem reciprocal_relation_impossible (cl : List String)
    (st : List RelationRow) (A B t : String) (rels : List CardRelation)
    (hmem : (⟨t, B, A, true⟩ : RelationRow) ∈ st)
    (hAB : A ≠ B)
    (hA : cl.contains A = true) (hB : cl.contains B = true)
    (hr : (⟨t, A⟩ : CardRelation) ∈ rels) :
    ∃ e : RelUniqueErr, replaceForCardTx cl st B rels = (st, some e) := by
  have hsurv : (⟨t, B, A, true⟩ : RelationRow) ∈ deleteOwnedRelations st B := by
    rw [mem_deleteOwned]
    refine ⟨hmem, ?_, ?_⟩
    · rintro ⟨_, hrev⟩
      simp at hrev
    · rintro ⟨hd, _⟩
      exact hAB hd
  obtain ⟨st1, e, hrun⟩ := replaceRelLoop_collision cl B rels
    (deleteOwnedRelations st B) ⟨t, A⟩ hr
    ⟨⟨t, B, A, true⟩, hsurv, rfl, rfl, rfl⟩ hB hA
  refine ⟨e, ?_⟩
  unfold replaceForCardTx replaceForCardRaw
  rw [hrun]

/-- Witness for C10: with cards `a`, `b` and the stored pair for
`a → b`, card `b` declaring `depends-on a` makes the write fail and
leaves the table unchanged. -/
theorem reciprocal_relation_impossible_witness :
    ∃ e : RelUniqueErr,
      replaceForCardTx ["a", "b"]
        [⟨"depends-on", "a", "b", false⟩, ⟨"depends-on", "b", "a", true⟩]
        "b" [⟨"depends-on", "a"⟩] =
      ([⟨"depends-on", "a", "b", false⟩, ⟨"depends-on", "b", "a", true⟩], some e) :=
  reciprocal_relation_impossible ["a", "b"]
    [⟨"depends-on", "a", "b", false⟩, ⟨"depends-on", "b", "a", true⟩]
    "a" "b" "depends-on" [⟨"depends-on", "a"⟩]
    (by decide) (by decide) (by decide) (by decide) (by decide)

/-- Helper: `optNonEmpty` keeps a non-empty present list. -/
theorem optNonEmpty_some {α : Type} (l : List α) (h : l ≠ []) :
    optNonEmpty (some l) = some l := by
  simp [optNonEmpty, h]

/-- Helper: after upserting a row, its key is among the card keys. -/
theorem cardKeys_upsert_contains (db : DbState) (row : CardRow) :
    (cardKeys (upsertCard db row)).contains row.key = true := by
  have hmem : row.key ∈ cardKeys (upsertCard db row) := by
    unfold upsertCard cardKeys
    split
    · rename_i hany
      obtain ⟨c, hc, hck⟩ := List.any_eq_true.mp hany
      refine List.mem_map.mpr ⟨row, ?_, rfl⟩
      exact List.mem_map.mpr ⟨c, hc, by simp [hck]⟩
    · simp
  simpa [List.elem_iff] using hmem

/-- Helper: when the update fields specify relations containing a
self-reference `{type, target = key}`, the update's store-transaction
body reports an error — the forward insert of the self edge succeeds
into a table the delete phase cleared of `(key, key)` edges, and the
mirror insert then collides with it under the unique index. -/
theorem updateDbActionRaw_self_err (db : DbState) (fields : UpdateCardFields)
    (next : CardFrontmatter) (key filePath nextBody now : String)
    (v : Option (List CardRelation)) (rels : List CardRelation)
    (hrel : fields.relations = some v)
    (hnext : next.relations = some rels)
    (hself : ∃ r ∈ rels, r.target = key) :
    ∃ db1 e, updateDbActionRaw db fields next key filePath nextBody now =
      (db1, some e) := by
  unfold updateDbActionRaw
  rw [hrel, hnext]
  have hck : (cardKeys (upsertCard db
      ⟨key, next.summary, next.status, next.constraints, nextBody, filePath, now⟩)).contains
      key = true :=
    cardKeys_upsert_contains db _
  obtain ⟨st1, e, hrun⟩ := replaceRelLoop_self
    (cardKeys (upsertCard db
      ⟨key, next.summary, next.status, next.constraints, nextBody, filePath, now⟩))
    key rels
    (deleteOwnedRelations (upsertCard db
      ⟨key, next.summary, next.status, next.constraints, nextBody, filePath, now⟩).relations key)
    hself hck
    (deleteOwned_no_self _ key)
  simp only [Option.getD_some]
  rw [show replaceForCardRaw (cardKeys (upsertCard db
      ⟨key, next.summary, next.status, next.constraints, nextBody, filePath, now⟩))
      (upsertCard db
        ⟨key, next.summary, next.status, next.constraints, nextBody, filePath, now⟩).relations
      key rels = (st1, some e) from by
    unfold replaceForCardRaw
    exact hrun]
  exact ⟨_, _, rfl⟩

/-- C8: Self-referencing relations are impossible: an update of card `s`
whose relations contain `{type, target: s}` raises an error (the mirror
row collides with the forward row under the unique index on
`(type, srcCardKey, dstCardKey)`), the whole state — card file and DB —
is unchanged, and the store afterwards still contains no edge with
`srcCardKey = dstCardKey`. -/
theorem update_self_relation_rejected (cardsDir : String)
    (allowed : List String) (now : String) (st : SysState)
    (fullKey key : String) (fields : UpdateCardFields)
    (rels : List CardRelation)
    (hparse : parseFullKey fullKey = .ok key)
    (hrel : fields.relations = some (some rels))
    (hself : ∃ r ∈ rels, r.target = key)
    (hnoself : ∀ m ∈ st.db.relations, m.srcCardKey ≠ m.dstCardKey) :
    (∃ e, updateCard cardsDir allowed now st fullKey fields = (st, .error e)) ∧
    (∀ m ∈ (updateCard cardsDir allowed now st fullKey fields).1.db.relations,
      m.srcCardKey ≠ m.dstCardKey) := by
  have hne : rels ≠ [] := by
    rintro rfl
    obtain ⟨r, hr, _⟩ := hself
    simp at hr
  have hmain : ∃ e, updateCard cardsDir allowed now st fullKey fields =
      (st, .error e) := by
    cases hval : validateCardInput ⟨fields.summary, fields.body,
        fields.keywords.join, fields.tags.join, fields.relations.join,
        fields.codeLinks.join⟩ with
    | error m => exact ⟨.validation m, by simp only [updateCard, hval]⟩
    | ok u =>
      cases hread : readFile st.files (buildCardPath cardsDir key) with
      | none =>
        exact ⟨.notFound key, by simp only [updateCard, hval, hparse, hread]⟩
      | some current =>
        by_cases hkey : (current.frontmatter.key != key) = true
        · exact ⟨.notFound key,
            by simp only [updateCard, hval, hparse, hread, hkey, if_true]⟩
        · have hkey2 : (current.frontmatter.key != key) = false := by
            simpa using hkey
          cases hfind : (fields.relations.join.getD []).find?
              (fun r => !(allowed.contains r.type)) with
          | some r =>
            exact ⟨.relationType r.type,
              by simp only [updateCard, hval, hparse, hread, hkey2,
                Bool.false_eq_true, if_false, hfind]⟩
          | none =>
            have hnext : (composeNext current.frontmatter fields).relations =
                some rels := by
              simp only [composeNext, hrel]
              exact optNonEmpty_some rels hne
            obtain ⟨db1, e, hact⟩ := updateDbActionRaw_self_err st.db fields
              (composeNext current.frontmatter fields) key
              (buildCardPath cardsDir key) (fields.body.getD current.body) now
              (some rels) rels hrel hnext hself
            exact ⟨e, by simp only [updateCard, hval, hparse, hread, hkey2,
              Bool.false_eq_true, if_false, hfind, hact, txWrap]⟩
  obtain ⟨e, heq⟩ := hmain
  exact ⟨⟨e, heq⟩, by rw [heq]; exact hnoself⟩

/-- Witness for C8: updating card `s` with a `depends-on s` relation on
a concrete one-card state errors and leaves the state unchanged. -/
theorem update_self_relation_rejected_witness :
    (∃ e, updateCard "/cards" ["depends-on"] "t1"
      ⟨[("/cards/s.card.md",
          ⟨⟨"s", "S", .draft, none, none, none, none, none⟩, ""⟩)],
        ⟨[⟨"s", "S", .draft, none, "", "/cards/s.card.md", "t0"⟩], [], [], [], []⟩⟩
      "s"
      ⟨none, none, none, none, none, some (some [⟨"depends-on", "s"⟩]), none⟩ =
      (⟨[("/cards/s.card.md",
          ⟨⟨"s", "S", .draft, none, none, none, none, none⟩, ""⟩)],
        ⟨[⟨"s", "S", .draft, none, "", "/cards/s.card.md", "t0"⟩], [], [], [], []⟩⟩,
       .error e)) := by
  have h := update_self_relation_rejected "/cards" ["depends-on"] "t1"
    ⟨[("/cards/s.card.md",
        ⟨⟨"s", "S", .draft, none, none, none, none, none⟩, ""⟩)],
      ⟨[⟨"s", "S", .draft, none, "", "/cards/s.card.md", "t0"⟩], [], [], [], []⟩⟩
    "s" "s"
    ⟨none, none, none, none, none, some (some [⟨"depends-on", "s"⟩]), none⟩
    [⟨"depends-on", "s"⟩]
    rfl rfl ⟨⟨"depends-on", "s"⟩, by simp, rfl⟩ (by simp)
  exact h.1

/-- Helper: sequencing two unit-valued `Except` computations succeeds
exactly when both do. -/
theorem except_andThen_ok {ε : Type} (x y : Except ε Unit) :
    (do x; y) = Except.ok () ↔ x = .ok () ∧ y = .ok () := by
  cases x with
  | error e => simp [Bind.bind, Except.bind]
  | ok u => cases u; simp [Bind.bind, Except.bind]

/-- Helper: the summary validator agrees with the claimed ceiling. -/
theorem validateSummary_ok (s : Option String) :
    validateSummary s = .ok () ↔ summaryViol s = false := by
  cases s with
  | none => simp [validateSummary, summaryViol]
  | some s =>
    simp only [validateSummary, summaryViol, LIMITS.SUMMARY_MAX]
    by_cases h0 : s.length = 0
    · simp [h0]
    · by_cases h5 : s.length > 500
      · simp [h0, h5]
      · simp [h0, h5]

/-- Helper: the body validator agrees with the claimed ceiling. -/
theorem validateBody_ok (b : Option String) :
    validateBody b = .ok () ↔ bodyViol b = false := by
  cases b with
  | none => simp [validateBody, bodyViol]
  | some b =>
    simp only [validateBody, bodyViol, LIMITS.BODY_MAX]
    by_cases h : b.length > 100000
    · simp [h]
    · simp [h]

/-- Helper: the keyword item loop agrees with the claimed item ceiling. -/
theorem validateKeywordItems_ok (l : List String) :
    validateKeywordItems l = .ok () ↔ l.any (fun k => k.length > 100) = false := by
  induction l with
  | nil => simp [validateKeywordItems]
  | cons k rest ih =>
    simp only [validateKeywordItems, LIMITS.ITEM_MAX]
    by_cases hk : k.length > 100
    · simp [hk]
    · simp [hk, ih]

/-- Helper: the keywords validator agrees with the claimed ceilings. -/
theorem validateKeywords_ok (ks : Option (List String)) :
    validateKeywords ks = .ok () ↔ keywordsViol ks = false := by
  cases ks with
  | none => simp [validateKeywords, keywordsViol]
  | some ks =>
    simp only [validateKeywords, keywordsViol, LIMITS.ARRAY_MAX]
    by_cases h : ks.length > 100
    · simp [h]
    · simp [h, validateKeywordItems_ok]

/-- Helper: the tag item loop agrees with the claimed item ceiling. -/
theorem validateTagItems_ok (l : List String) :
    validateTagItems l = .ok () ↔ l.any (fun t => t.length > 100) = false := by
  induction l with
  | nil => simp [validateTagItems]
  | cons t rest ih =>
    simp only [validateTagItems, LIMITS.ITEM_MAX]
    by_cases ht : t.length > 100
    · simp [ht]
    · simp [ht, ih]

/-- Helper: the tags validator agrees with the claimed ceilings. -/
theorem validateTags_ok (ts : Option (List String)) :
    validateTags ts = .ok () ↔ tagsViol ts = false := by
  cases ts with
  | none => simp [validateTags, tagsViol]
  | some ts =>
    simp only [validateTags, tagsViol, LIMITS.ARRAY_MAX]
    by_cases h : ts.length > 100
    · simp [h]
    · simp [h, validateTagItems_ok]

/-- Helper: the relation item loop agrees with the claimed target
ceiling. -/
theorem validateRelationItems_ok (l : List CardRelation) :
    validateRelationItems l = .ok () ↔
      l.any (fun r => r.target.length > 200) = false := by
  induction l with
  | nil => simp [validateRelationItems]
  | cons r rest ih =>
    simp only [validateRelationItems, LIMITS.RELATION_TARGET_MAX]
    by_cases hr : r.target.length > 200
    · simp [hr]
    · simp [hr, ih]

/-- Helper: the relations validator agrees with the claimed ceilings. -/
theorem validateRelations_ok (rels : Option (List CardRelation)) :
    validateRelations rels = .ok () ↔ relationsViol rels = false := by
  cases rels with
  | none => simp [validateRelations, relationsViol]
  | some rels =>
    simp only [validateRelations, relationsViol, LIMITS.ARRAY_MAX]
    by_cases h : rels.length > 100
    · simp [h]
    · simp [h, validateRelationItems_ok]

/-- Helper: the code-link item loop agrees with the claimed symbol and
file ceilings. -/
theorem validateCodeLinkItems_ok (l : List CodeLink) :
    validateCodeLinkItems l = .ok () ↔
      l.any (fun c => c.symbol.length > 200 || c.file.length > 500) = false := by
  induction l with
  | nil => simp [validateCodeLinkItems]
  | cons c rest ih =>
    simp only [validateCodeLinkItems, LIMITS.CODE_LINK_SYMBOL_MAX,
      LIMITS.CODE_LINK_FILE_MAX]
    by_cases hs : c.symbol.length > 200
    · simp [hs]
    · by_cases hf : c.file.length > 500
      · simp [hs, hf]
      · simp [hs, hf, ih]

/-- Helper: the code-links validator agrees with the claimed ceilings. -/
theorem validateCodeLinks_ok (links : Option (List CodeLink)) :
    validateCodeLinks links = .ok () ↔ codeLinksViol links = false := by
  cases links with
  | none => simp [validateCodeLinks, codeLinksViol]
  | some links =>
    simp only [validateCodeLinks, codeLinksViol, LIMITS.ARRAY_MAX]
    by_cases h : links.length > 100
    · simp [h]
    · simp [h, validateCodeLinkItems_ok]

/-- Helper: `validateCardInput` succeeds exactly when no claimed ceiling
is violated. -/
theorem validateCardInput_ok (v : ValidationInput) :
    validateCardInput v = .ok () ↔ violatesCeilings v = false := by
  unfold validateCardInput
  simp only [except_andThen_ok, violatesCeilings, Bool.or_eq_false_iff,
    validateSummary_ok, validateBody_ok, validateKeywords_ok, validateTags_ok,
    validateRelations_ok, validateCodeLinks_ok, and_assoc]

/-- C2: `createCard` validates its input against the per-field size
ceilings (summary non-empty and at most 500 chars, body at most 100000,
each list at most 100 items, keyword/tag item at most 100, relation
target at most 200, code-link symbol at most 200, code-link file at most
500) before the lock acquisition, the DB write and the file write: the
validator accepts exactly the inputs within the ceilings, and on any
violating input `createCard` raises `CardValidationError` with the state
— DB and file system — unchanged. -/
theorem createCard_validates_ceilings (cardsDir : String)
    (allowed : List String) (now : String) (st : SysState)
    (input : CreateCardInput) :
    (validateCardInput (createInputValidation input) = .ok () ↔
      violatesCeilings (createInputValidation input) = false) ∧
    (violatesCeilings (createInputValidation input) = true →
      ∃ m, createCard cardsDir allowed now st input =
        (st, .error (.validation m))) := by
  refine ⟨validateCardInput_ok _, ?_⟩
  intro hviol
  cases hval : validateCardInput (createInputValidation input) with
  | ok u =>
    cases u
    rw [(validateCardInput_ok _).mp hval] at hviol
    exact absurd hviol (by simp)
  | error m =>
    exact ⟨m, by simp only [createCard, hval]⟩

/-- Witness for C2: creating a card with an empty summary on the empty
state raises `CardValidationError` and changes nothing. -/
theorem createCard_validates_ceilings_witness :
    ∃ m, createCard "/cards" [] "t0" ⟨[], emptyDb⟩
      ⟨"x", "", none, none, none, none, none, none⟩ =
      (⟨[], emptyDb⟩, .error (.validation m)) :=
  (createCard_validates_ceilings "/cards" [] "t0" ⟨[], emptyDb⟩
    ⟨"x", "", none, none, none, none, none, none⟩).2 (by decide)

/-- Helper: node well-formedness is monotone in the emission list. -/
theorem nodeWellFormed_mono (db : DbState) (dir : GraphDirection)
    (rootKey : String) (out out' : List RelationGraphNode)
    (hsub : ∀ b ∈ out, b ∈ out') (a : RelationGraphNode)
    (h : nodeWellFormed db dir rootKey out a) :
    nodeWellFormed db dir rootKey out' a := by
  obtain ⟨hex, e, he, hdst, hty, hdir, hskip, hpar⟩ := h
  refine ⟨hex, e, he, hdst, hty, hdir, hskip, ?_⟩
  rcases hpar with h1 | ⟨b, hb, hbk, hbd⟩
  · exact .inl h1
  · exact .inr ⟨b, hsub b hb, hbk, hbd⟩

/-- Helper: queue-entry validity is monotone in the emission list. -/
theorem queueEntryOk_mono (rootKey : String)
    (acc acc' : List RelationGraphNode)
    (hsub : ∀ b ∈ acc, b ∈ acc') (q : String × Nat)
    (h : queueEntryOk rootKey acc q) : queueEntryOk rootKey acc' q := by
  rcases h with h1 | ⟨b, hb, hbk, hbd⟩
  · exact .inl h1
  · exact .inr ⟨b, hsub b hb, hbk, hbd⟩

/-- Helper: one BFS expansion step preserves the traversal invariant —
the root stays visited, emitted keys are visited, pairwise distinct,
never the root, each emitted node is well-formed with its generating
edge departing from the current key, new nodes sit one level below the
current depth, and every pending queue entry corresponds to the root or
to an emitted node. -/
theorem expandRels_invariant (db : DbState) (dir : GraphDirection)
    (depth : Nat) (rootKey currentKey : String) :
    ∀ (rels : List RelationRow) (visited : List String)
      (acc : List RelationGraphNode) (queue : List (String × Nat))
      (v1 : List String) (a1 : List RelationGraphNode)
      (q1 : List (String × Nat)),
    expandRels db dir depth rels visited acc queue = (v1, a1, q1) →
    rootKey ∈ visited →
    (∀ a ∈ acc, a.key ∈ visited) →
    (acc.map (fun a => a.key)).Nodup →
    (∀ a ∈ acc, a.key ≠ rootKey) →
    (∀ a ∈ acc, nodeWellFormed db dir rootKey acc a) →
    (∀ e ∈ rels, e ∈ db.relations ∧ e.srcCardKey = currentKey) →
    ((depth = 0 ∧ currentKey = rootKey) ∨
      ∃ b ∈ acc, b.key = currentKey ∧ b.depth = depth) →
    (∀ q ∈ queue, queueEntryOk rootKey acc q) →
    rootKey ∈ v1 ∧
    (∀ a ∈ a1, a.key ∈ v1) ∧
    (a1.map (fun a => a.key)).Nodup ∧
    (∀ a ∈ a1, a.key ≠ rootKey) ∧
    (∀ a ∈ a1, nodeWellFormed db dir rootKey a1 a) ∧
    (∀ a ∈ a1, a ∈ acc ∨ a.depth = depth + 1) ∧
    (∀ q ∈ q1, queueEntryOk rootKey a1 q) := by
  intro rels
  induction rels with
  | nil =>
    intro visited acc queue v1 a1 q1 heq hroot hsub hnd hnr hwf _ _ hqueue
    simp only [expandRels, Prod.mk.injEq] at heq
    obtain ⟨rfl, rfl, rfl⟩ := heq
    exact ⟨hroot, hsub, hnd, hnr, hwf, fun a ha => .inl ha, hqueue⟩
  | cons rel rest ih =>
    intro visited acc queue v1 a1 q1 heq hroot hsub hnd hnr hwf hrels hcur hqueue
    have hrest : ∀ e ∈ rest, e ∈ db.relations ∧ e.srcCardKey = currentKey :=
      fun e he => hrels e (List.mem_cons_of_mem rel he)
    simp only [expandRels] at heq
    split at heq
    · exact ih visited acc queue v1 a1 q1 heq hroot hsub hnd hnr hwf hrest
        hcur hqueue
    · split at heq
      · exact ih visited acc queue v1 a1 q1 heq hroot hsub hnd hnr hwf hrest
          hcur hqueue
      · split at heq
        · exact ih visited acc queue v1 a1 q1 heq hroot hsub hnd hnr hwf hrest
            hcur hqueue
        · rename_i hskip hvis hex
          have hnotvis : rel.dstCardKey ∉ visited := by
            intro h
            exact absurd (List.elem_eq_true_of_mem h) (by simpa using hvis)
          have hexists : existsByKey db rel.dstCardKey = true := by
            simpa using hex
          have hskipf : dirSkip dir rel = false := by
            simpa using hskip
          have hrel0 := hrels rel (List.mem_cons_self rel rest)
          have hmono : ∀ b ∈ acc,
              b ∈ acc ++ [(⟨rel.dstCardKey, depth + 1, rel.type,
                if rel.isReverse then .backward else .forward⟩ :
                RelationGraphNode)] :=
            fun b hb => List.mem_append.mpr (.inl hb)
          have h := ih (visited ++ [rel.dstCardKey]) _ _ v1 a1 q1 heq
            (List.mem_append.mpr (.inl hroot))
            (by
              intro a ha
              rcases List.mem_append.mp ha with h | h
              · exact List.mem_append.mpr (.inl (hsub a h))
              · rw [List.mem_singleton.mp h]
                exact List.mem_append.mpr (.inr (List.mem_singleton.mpr rfl)))
            (by
              rw [List.map_append]
              refine List.Nodup.append hnd (by simp) ?_
              intro x hx hy
              simp only [List.map_cons, List.map_nil, List.mem_singleton] at hy
              obtain ⟨a, ha, rfl⟩ := List.mem_map.mp hx
              exact hnotvis (hy ▸ hsub a ha))
            (by
              intro a ha
              rcases List.mem_append.mp ha with h | h
              · exact hnr a h
              · rw [List.mem_singleton.mp h]
                intro hcon
                have : rel.dstCardKey = rootKey := hcon
                exact hnotvis (this ▸ hroot))
            (by
              intro a ha
              rcases List.mem_append.mp ha with h | h
              · exact nodeWellFormed_mono db dir rootKey acc _ hmono a (hwf a h)
              · rw [List.mem_singleton.mp h]
                refine ⟨hexists, rel, hrel0.1, rfl, rfl, ?_, hskipf, ?_⟩
                · cases hrev : rel.isReverse <;> simp [hrev]
                · rcases hcur with ⟨hd0, hck⟩ | ⟨b, hb, hbk, hbd⟩
                  · exact .inl ⟨by show depth + 1 = 1; omega,
                      hrel0.2.trans hck⟩
                  · exact .inr ⟨b, List.mem_append.mpr (.inl hb),
                      hbk.trans hrel0.2.symm,
                      by show b.depth + 1 = depth + 1; omega⟩)
            hrest
            (by
              rcases hcur with h1 | ⟨b, hb, hbk, hbd⟩
              · exact .inl h1
              · exact .inr ⟨b, List.mem_append.mpr (.inl hb), hbk, hbd⟩)
            (by
              intro q hq
              rcases List.mem_append.mp hq with h | h
              · exact queueEntryOk_mono rootKey acc _ hmono q (hqueue q h)
              · rw [List.mem_singleton.mp h]
                exact .inr ⟨⟨rel.dstCardKey, depth + 1, rel.type,
                  if rel.isReverse then .backward else .forward⟩,
                  List.mem_append.mpr (.inr (List.mem_singleton.mpr rfl)),
                  rfl, rfl⟩)
          refine ⟨h.1, h.2.1, h.2.2.1, h.2.2.2.1, h.2.2.2.2.1, ?_,
            h.2.2.2.2.2.2⟩
          intro a ha
          rcases h.2.2.2.2.2.1 a ha with h1 | h1
          · rcases List.mem_append.mp h1 with h2 | h2
            · exact .inl h2
            · rw [List.mem_singleton.mp h2]
              exact .inr rfl
          · exact .inr h1

/-- Helper: the BFS loop preserves the traversal invariant down to its
final emission list — distinct non-root keys, every node well-formed
relative to the finished list, and every depth within the bound. -/
theorem bfsLoop_invariant (db : DbState) (dir : GraphDirection)
    (maxD : Option Nat) (rootKey : String) :
    ∀ (fuel : Nat) (queue : List (String × Nat)) (visited : List String)
      (acc : List RelationGraphNode),
    rootKey ∈ visited →
    (∀ a ∈ acc, a.key ∈ visited) →
    (acc.map (fun a => a.key)).Nodup →
    (∀ a ∈ acc, a.key ≠ rootKey) →
    (∀ a ∈ acc, nodeWellFormed db dir rootKey acc a) →
    (∀ q ∈ queue, queueEntryOk rootKey acc q) →
    (∀ a ∈ acc, ∀ d, maxD = some d → a.depth ≤ d) →
    ((bfsLoop db dir maxD fuel queue visited acc).map (fun a => a.key)).Nodup ∧
    (∀ a ∈ bfsLoop db dir maxD fuel queue visited acc, a.key ≠ rootKey) ∧
    (∀ a ∈ bfsLoop db dir maxD fuel queue visited acc,
      nodeWellFormed db dir rootKey
        (bfsLoop db dir maxD fuel queue visited acc) a) ∧
    (∀ a ∈ bfsLoop db dir maxD fuel queue visited acc, ∀ d, maxD = some d →
      a.depth ≤ d) := by
  intro fuel
  induction fuel with
  | zero =>
    intro queue visited acc _ _ hnd hnr hwf _ hdep
    exact ⟨hnd, hnr, hwf, hdep⟩
  | succ fuel ih =>
    intro queue visited acc hroot hsub hnd hnr hwf hqueue hdep
    cases queue with
    | nil => exact ⟨hnd, hnr, hwf, hdep⟩
    | cons head rest =>
      cases head with
      | mk currentKey currentDepth =>
        simp only [bfsLoop]
        split
        · exact ih rest visited acc hroot hsub hnd hnr hwf
            (fun q hq => hqueue q (List.mem_cons_of_mem _ hq)) hdep
        · rename_i hguard
          have hlt : ∀ d, maxD = some d → currentDepth + 1 ≤ d := by
            intro d hd
            rw [hd] at hguard
            simp at hguard
            omega
          have hrels : ∀ e ∈ relationFindByCardKey db.relations currentKey,
              e ∈ db.relations ∧ e.srcCardKey = currentKey := by
            intro e he
            have he' : e ∈ db.relations.filter
                (fun r => r.srcCardKey == currentKey) := he
            have h2 := List.mem_filter.mp he'
            exact ⟨h2.1, by simpa using h2.2⟩
          have hcur := hqueue (currentKey, currentDepth)
            (List.mem_cons_self _ _)
          cases hsplit : expandRels db dir currentDepth
              (relationFindByCardKey db.relations currentKey) visited acc rest with
          | mk v1 rest1 =>
            cases rest1 with
            | mk a1 q1 =>
              have hexp := expandRels_invariant db dir currentDepth rootKey
                currentKey (relationFindByCardKey db.relations currentKey)
                visited acc rest v1 a1 q1 hsplit hroot hsub hnd hnr hwf hrels
                hcur (fun q hq => hqueue q (List.mem_cons_of_mem _ hq))
              have hdep1 : ∀ a ∈ a1, ∀ d, maxD = some d → a.depth ≤ d := by
                intro a ha d hd
                rcases hexp.2.2.2.2.2.1 a ha with h1 | h1
                · exact hdep a h1 d hd
                · rw [h1]
                  exact hlt d hd
              exact ih q1 v1 a1 hexp.1 hexp.2.1 hexp.2.2.1 hexp.2.2.2.1
                hexp.2.2.2.2.1 hexp.2.2.2.2.2.2 hdep1

/-- Helper: with `maxDepth = 0` every queue entry is skipped and the BFS
returns its accumulator unchanged. -/
theorem bfsLoop_maxDepth_zero (db : DbState) (dir : GraphDirection) :
    ∀ (fuel : Nat) (queue : List (String × Nat)) (visited : List String)
      (acc : List RelationGraphNode),
    bfsLoop db dir (some 0) fuel queue visited acc = acc := by
  intro fuel
  induction fuel with
  | zero => intro queue visited acc; rfl
  | succ fuel ih =>
    intro queue visited acc
    cases queue with
    | nil => rfl
    | cons head rest =>
      cases head with
      | mk k d => simp [bfsLoop, ih]

/-- C6: `getRelationGraph(ctx, key, {maxDepth, direction})` never emits
the root key, emits every other visited key at most once with the
relation type and direction of the breadth-first edge that first
reached it (the generating edge points at the key from the root when
`depth = 1` and otherwise from an emitted node exactly one level
shallower, its direction is forward exactly when `isReverse = false`,
and it passes the direction filter, so a forward-only traversal emits
only forward nodes and a backward-only traversal only backward nodes),
skips edges whose target card row is absent (every emitted key has a
row), keeps every emitted depth within `maxDepth`, returns the empty
list when `maxDepth = 0`, and returns the empty list when the root card
row does not exist. -/
theorem getRelationGraph_bfs_contract (db : DbState)
    (fullKey rootKey : String) (maxD : Option Nat) (dir : GraphDirection)
    (hparse : parseFullKey fullKey = .ok rootKey) :
    (existsByKey db rootKey = false →
      getRelationGraph db fullKey maxD dir = .ok []) ∧
    (maxD = some 0 → getRelationGraph db fullKey maxD dir = .ok []) ∧
    (∀ nodes, getRelationGraph db fullKey maxD dir = .ok nodes →
      (∀ n ∈ nodes, n.key ≠ rootKey) ∧
      (nodes.map (fun n => n.key)).Nodup ∧
      (∀ n ∈ nodes, nodeWellFormed db dir rootKey nodes n) ∧
      (∀ d, maxD = some d → ∀ n ∈ nodes, n.depth ≤ d) ∧
      (dir = .forward → ∀ n ∈ nodes, n.direction = .forward) ∧
      (dir = .backward → ∀ n ∈ nodes, n.direction = .backward)) := by
  refine ⟨?_, ?_, ?_⟩
  · intro hmiss
    simp only [getRelationGraph, hparse, hmiss]
    rfl
  · rintro rfl
    simp only [getRelationGraph, hparse]
    split
    · rfl
    · rw [bfsLoop_maxDepth_zero]
  · intro nodes hrun
    simp only [getRelationGraph, hparse] at hrun
    split at hrun
    · cases hrun
      exact ⟨by simp, by simp, by simp, by simp, by simp, by simp⟩
    · cases hrun
      have h := bfsLoop_invariant db dir maxD rootKey (db.cards.length + 1)
        [(rootKey, 0)] [rootKey] []
        (List.mem_singleton.mpr rfl) (by simp) (by simp) (by simp) (by simp)
        (by
          intro q hq
          rw [List.mem_singleton] at hq
          subst hq
          exact .inl ⟨rfl, rfl⟩)
        (by simp)
      refine ⟨h.2.1, h.1, h.2.2.1, fun d hd n hn => h.2.2.2 n hn d hd,
        ?_, ?_⟩
      · rintro rfl n hn
        obtain ⟨-, e, -, -, -, hiff, hskipf, -⟩ := h.2.2.1 n hn
        have hrev : e.isReverse = false := hskipf
        exact hiff.mpr hrev
      · rintro rfl n hn
        obtain ⟨-, e, -, -, -, hiff, hskipf, -⟩ := h.2.2.1 n hn
        have hrev : e.isReverse = true := by
          have : (!e.isReverse) = false := hskipf
          simpa using this
        cases hd : n.direction
        · exact absurd (hrev ▸ hiff.mp hd) (by simp)
        · rfl

/-- Witness for C6: the diamond `a → b, a → c, b → d, c → d` traversed
forward from `a` emits `b`, `c` once at depth 1 and `d` once at depth 2,
with no root emission, every node generated by a breadth-first edge from
its parent, and only forward directions. -/
theorem getRelationGraph_bfs_contract_witness :
    (∀ n ∈ [(⟨"b", 1, "t", .forward⟩ : RelationGraphNode),
            ⟨"c", 1, "t", .forward⟩, ⟨"d", 2, "t", .forward⟩], n.key ≠ "a") ∧
    (([(⟨"b", 1, "t", .forward⟩ : RelationGraphNode),
       ⟨"c", 1, "t", .forward⟩, ⟨"d", 2, "t", .forward⟩].map
        (fun n => n.key)).Nodup) ∧
    (∀ n ∈ [(⟨"b", 1, "t", .forward⟩ : RelationGraphNode),
            ⟨"c", 1, "t", .forward⟩, ⟨"d", 2, "t", .forward⟩],
      nodeWellFormed
        ⟨[⟨"a", "A", .draft, none, "", "/cards/a.card.md", "t0"⟩,
          ⟨"b", "B", .draft, none, "", "/cards/b.card.md", "t0"⟩,
          ⟨"c", "C", .draft, none, "", "/cards/c.card.md", "t0"⟩,
          ⟨"d", "D", .draft, none, "", "/cards/d.card.md", "t0"⟩],
         [⟨"t", "a", "b", false⟩, ⟨"t", "b", "a", true⟩,
          ⟨"t", "a", "c", false⟩, ⟨"t", "c", "a", true⟩,
          ⟨"t", "b", "d", false⟩, ⟨"t", "d", "b", true⟩,
          ⟨"t", "c", "d", false⟩, ⟨"t", "d", "c", true⟩],
         [], [], []⟩ .forward "a"
        [⟨"b", 1, "t", .forward⟩, ⟨"c", 1, "t", .forward⟩,
         ⟨"d", 2, "t", .forward⟩] n) ∧
    (∀ d, (none : Option Nat) = some d →
      ∀ n ∈ [(⟨"b", 1, "t", .forward⟩ : RelationGraphNode),
             ⟨"c", 1, "t", .forward⟩, ⟨"d", 2, "t", .forward⟩],
        n.depth ≤ d) ∧
    (GraphDirection.forward = .forward →
      ∀ n ∈ [(⟨"b", 1, "t", .forward⟩ : RelationGraphNode),
             ⟨"c", 1, "t", .forward⟩, ⟨"d", 2, "t", .forward⟩],
        n.direction = .forward) ∧
    (GraphDirection.forward = .backward →
      ∀ n ∈ [(⟨"b", 1, "t", .forward⟩ : RelationGraphNode),
             ⟨"c", 1, "t", .forward⟩, ⟨"d", 2, "t", .forward⟩],
        n.direction = .backward) :=
  (getRelationGraph_bfs_contract
    ⟨[⟨"a", "A", .draft, none, "", "/cards/a.card.md", "t0"⟩,
      ⟨"b", "B", .draft, none, "", "/cards/b.card.md", "t0"⟩,
      ⟨"c", "C", .draft, none, "", "/cards/c.card.md", "t0"⟩,
      ⟨"d", "D", .draft, none, "", "/cards/d.card.md", "t0"⟩],
     [⟨"t", "a", "b", false⟩, ⟨"t", "b", "a", true⟩,
      ⟨"t", "a", "c", false⟩, ⟨"t", "c", "a", true⟩,
      ⟨"t", "b", "d", false⟩, ⟨"t", "d", "b", true⟩,
      ⟨"t", "c", "d", false⟩, ⟨"t", "d", "c", true⟩],
     [], [], []⟩
    "a" "a" none .forward rfl).2.2
    [⟨"b", 1, "t", .forward⟩, ⟨"c", 1, "t", .forward⟩, ⟨"d", 2, "t", .forward⟩]
    rfl

/-- Helper: replacing the matching rows finds the replacement first. -/
theorem find?_map_replace (l : List CardRow) (row : CardRow)
    (h : l.any (fun c => c.key == row.key) = true) :
    (l.map (fun c => if c.key == row.key then row else c)).find?
      (fun c => c.key == row.key) = some row := by
  induction l with
  | nil => simp at h
  | cons c rest ih =>
    by_cases hc : (c.key == row.key) = true
    · simp [List.find?, hc]
    · have h2 : rest.any (fun c => c.key == row.key) = true := by
        simpa [hc] using h
      simpa [List.find?, hc] using ih h2

/-- Helper: appending a row with a fresh key is found after the misses. -/
theorem find?_append_row (l : List CardRow) (row : CardRow)
    (h : l.any (fun c => c.key == row.key) = false) :
    (l ++ [row]).find? (fun c => c.key == row.key) = some row := by
  induction l with
  | nil => simp [List.find?]
  | cons c rest ih =>
    rw [List.any_cons] at h
    have hc : (c.key == row.key) = false := by
      rcases Bool.eq_false_or_eq_true (c.key == row.key) with ht | hf
      · rw [ht] at h
        simp at h
      · exact hf
    rw [hc] at h
    simp only [Bool.false_or] at h
    simpa [List.find?, hc] using ih h

/-- Helper: after an upsert, looking up the row's key finds exactly the
new row. -/
theorem findByKey_upsert_self (db : DbState) (row : CardRow) :
    findByKey (upsertCard db row) row.key = some row := by
  unfold findByKey upsertCard
  split
  · rename_i hany
    exact find?_map_replace db.cards row hany
  · rename_i hany
    exact find?_append_row db.cards row (by simpa using hany)

/-- Helper: an upsert of a different key does not create a row for an
absent key. -/
theorem findByKey_upsert_other (db : DbState) (row : CardRow) (k : String)
    (hk : k ≠ row.key) (h : findByKey db k = none) :
    findByKey (upsertCard db row) k = none := by
  unfold findByKey at h ⊢
  rw [List.find?_eq_none] at h ⊢
  intro x hx
  unfold upsertCard at hx
  split at hx
  · simp only [List.mem_map] at hx
    obtain ⟨c, hc, rfl⟩ := hx
    by_cases hcr : (c.key == row.key) = true
    · simp [hcr]
      exact fun hcon => hk hcon.symm
    · simpa [hcr] using h c hc
  · rcases List.mem_append.mp hx with hx | hx
    · exact h x hx
    · rw [List.mem_singleton.mp hx]
      simp
      exact fun hcon => hk hcon.symm

/-- Helper: the cascade delete removes every row of the key. -/
theorem findByKey_cascade_self (db : DbState) (key : String) :
    findByKey (deleteCardCascade db key) key = none := by
  unfold findByKey deleteCardCascade
  rw [List.find?_eq_none]
  intro x hx
  have := (List.mem_filter.mp hx).2
  simpa using this

/-- Helper: a key present among the card keys survives the cascade
delete of a different key. -/
theorem cardKeys_cascade_mem (db : DbState) (k oldKey : String)
    (hne : k ≠ oldKey) (h : k ∈ cardKeys db) :
    k ∈ cardKeys (deleteCardCascade db oldKey) := by
  unfold cardKeys at h ⊢
  obtain ⟨c, hc, rfl⟩ := List.mem_map.mp h
  exact List.mem_map.mpr ⟨c,
    List.mem_filter.mpr ⟨hc, by simpa using hne⟩, rfl⟩

/-- Helper: a key present among the card keys survives any upsert. -/
theorem cardKeys_upsert_mem (db : DbState) (row : CardRow) (k : String)
    (h : k ∈ cardKeys db) : k ∈ cardKeys (upsertCard db row) := by
  by_cases hk : k = row.key
  · subst hk
    have := cardKeys_upsert_contains db row
    simpa [List.elem_iff] using this
  · unfold cardKeys at h
    unfold cardKeys upsertCard
    split
    · obtain ⟨c, hc, rfl⟩ := List.mem_map.mp h
      refine List.mem_map.mpr ⟨if c.key == row.key then row else c,
        List.mem_map.mpr ⟨c, hc, rfl⟩, ?_⟩
      by_cases hcr : (c.key == row.key) = true
      · exact absurd (by simpa using hcr) hk
      · simp [hcr]
    · obtain ⟨c, hc, rfl⟩ := List.mem_map.mp h
      exact List.mem_map.mpr ⟨c, List.mem_append.mpr (.inl hc), rfl⟩

/-- Helper: reading a removed path yields nothing. -/
theorem readFile_removeFile_self (files : FileSys) (path : String) :
    readFile (removeFile files path) path = none := by
  unfold readFile removeFile
  rw [show ((files.filter (fun f => f.1 != path)).find?
      (fun f => f.1 == path)) = none from ?_]
  · rfl
  · rw [List.find?_eq_none]
    intro x hx
    have := (List.mem_filter.mp hx).2
    simpa using this

/-- Helper: overwriting entries of one path leaves lookups of another
path unchanged. -/
theorem find?_map_overwrite (l : List (String × CardFile)) (path q : String)
    (cf : CardFile) (h : q ≠ path) :
    (l.map (fun f => if f.1 == path then (path, cf) else f)).find?
      (fun f => f.1 == q) = l.find? (fun f => f.1 == q) := by
  induction l with
  | nil => simp
  | cons f rest ih =>
    by_cases hf : (f.1 == path) = true
    · have hfp : f.1 = path := by simpa using hf
      have hq1 : ((path, cf).1 == q) = false := by
        simp only [beq_eq_false_iff_ne, ne_eq]
        exact fun hcon => h hcon.symm
      have hq2 : (f.1 == q) = false := by
        rw [hfp]
        simp only [beq_eq_false_iff_ne, ne_eq]
        exact fun hcon => h hcon.symm
      rw [List.map_cons, if_pos hf]
      simp only [List.find?, hq1, hq2]
      exact ih
    · rw [List.map_cons, if_neg (by simpa using hf)]
      simp only [List.find?]
      cases hfq : (f.1 == q) with
      | true => rfl
      | false => exact ih

/-- Helper: writing one path does not affect reads of another. -/
theorem readFile_writeFile_other (files : FileSys) (path q : String)
    (cf : CardFile) (h : q ≠ path) :
    readFile (writeFile files path cf) q = readFile files q := by
  unfold readFile writeFile
  split
  · rw [find?_map_overwrite files path q cf h]
  · rw [List.find?_append]
    cases hres : files.find? (fun f => f.1 == q) with
    | some v => simp
    | none =>
      have hq1 : (((path, cf) : String × CardFile).1 == q) = false := by
        simp only [beq_eq_false_iff_ne, ne_eq]
        exact fun hcon => h hcon.symm
      simp [List.find?, hq1]

/-- Helper: a successful code-link insert appended the row. -/
theorem insertCodeLink_inserted (cl : List String) (st st1 : List CodeLinkRow)
    (l : CodeLinkRow) (h : insertCodeLink cl st l = .inserted st1) :
    st1 = st ++ [l] := by
  unfold insertCodeLink at h
  split at h
  · simp at h
  · split at h
    · simp at h
    · cases h
      rfl

/-- Helper: a code-link insert cannot report a FK violation when the
card key exists. -/
theorem insertCodeLink_fk_contra (cl : List String) (st : List CodeLinkRow)
    (l : CodeLinkRow) (h : insertCodeLink cl st l = .fkViolation)
    (hk : cl.contains l.cardKey = true) : False := by
  unfold insertCodeLink at h
  split at h
  · rename_i hg
    rw [hk] at hg
    simp at hg
  · split at h <;> simp at h

/-- Helper: with the owning card present, a successful code-link insert
loop appends every link in order. -/
theorem replaceLinkLoop_all_ok (cl : List String) (key : String) :
    ∀ (links : List CodeLink) (st st1 : List CodeLinkRow),
    cl.contains key = true →
    replaceLinkLoop cl key links st = (st1, none) →
    st1 = st ++ links.map (fun l => ⟨key, l.kind, l.file, l.symbol⟩) := by
  intro links
  induction links with
  | nil =>
    intro st st1 _ h
    simp only [replaceLinkLoop, Prod.mk.injEq] at h
    simp [← h.1]
  | cons l rest ih =>
    intro st st1 hk h
    simp only [replaceLinkLoop] at h
    split at h
    · rename_i hfk
      exact absurd (insertCodeLink_fk_contra cl st _ hfk hk) (fun x => x)
    · simp at h
    · rename_i stf hins
      obtain rfl := insertCodeLink_inserted cl st stf _ hins
      rw [ih _ st1 hk h, List.append_assoc]
      rfl

/-- Helper: with both endpoints present for every declared relation, a
successful relation insert loop appends each forward-mirror pair in
order. -/
theorem replaceRelLoop_all_ok (cl : List String) (key : String) :
    ∀ (rels : List CardRelation) (st st1 : List RelationRow),
    (∀ r ∈ rels, cl.contains key = true ∧ cl.contains r.target = true) →
    replaceRelLoop cl key rels st = (st1, none) →
    st1 = st ++ rels.flatMap (fun r => [forwardRow key r, mirrorRow key r]) := by
  intro rels
  induction rels with
  | nil =>
    intro st st1 _ h
    simp only [replaceRelLoop, Prod.mk.injEq] at h
    simp [← h.1]
  | cons r rest ih =>
    intro st st1 hfk h
    have hr := hfk r (List.mem_cons_self r rest)
    simp only [replaceRelLoop] at h
    split at h
    · rename_i hfwd
      exact absurd (insertRelation_fk_contra cl st _ hfwd hr.1 hr.2) (fun x => x)
    · simp at h
    · rename_i stf hfwd
      obtain ⟨_, rfl⟩ := insertRelation_inserted cl st _ _ hfwd
      split at h
      · rename_i hmfk
        exact absurd (insertRelation_fk_contra cl _ _ hmfk hr.2 hr.1) (fun x => x)
      · simp at h
      · rename_i stm hmir
        obtain ⟨_, rfl⟩ := insertRelation_inserted cl _ _ _ hmir
        rw [ih _ st1 (fun x hx => hfk x (List.mem_cons_of_mem r hx)) h]
        simp [List.append_assoc]

/-- Helper: filtering the inserted forward-mirror pairs for forward
edges of the owner yields exactly the forward rows. -/
theorem filter_fwd_flatMap (key : String) (rels : List CardRelation) :
    (rels.flatMap (fun r => [forwardRow key r, mirrorRow key r])).filter
      (fun r => r.srcCardKey == key && !r.isReverse) =
    rels.map (forwardRow key) := by
  induction rels with
  | nil => rfl
  | cons r rest ih =>
    show (([forwardRow key r, mirrorRow key r] ++
      rest.flatMap (fun r => [forwardRow key r, mirrorRow key r])).filter _) = _
    rw [List.filter_append, ih]
    simp [forwardRow, mirrorRow]

/-- Helper: the keyword/tag re-insertion stage of the rename transaction
installs exactly the snapshot under the new key, provided the table held
no mappings for the new key. -/
theorem classStageOk (stM : List (String × String)) (newKey : String)
    (N : List String)
    (hst : stM.filter (fun m => m.1 == newKey) = []) :
    (if N.isEmpty then stM else replaceKeywords stM newKey N).filter
      (fun m => m.1 == newKey) = N.map (fun n => (newKey, n)) := by
  split
  · rename_i hN
    rw [hst, List.isEmpty_iff.mp hN]
    rfl
  · unfold replaceKeywords
    rw [List.filter_append]
    have h1 : (stM.filter (fun m => m.1 != newKey)).filter
        (fun m => m.1 == newKey) = [] := by
      rw [List.filter_eq_nil_iff]
      intro x hx
      have hx2 := (List.mem_filter.mp hx).2
      simp only [bne_iff_ne, ne_eq] at hx2
      simp [hx2]
    have h2 : (N.map (fun n => (newKey, n))).filter
        (fun m => m.1 == newKey) = N.map (fun n => (newKey, n)) := by
      rw [List.filter_eq_self]
      intro x hx
      obtain ⟨n, _, rfl⟩ := List.mem_map.mp hx
      simp
    rw [h1, h2, List.nil_append]

/-- Helper: the code-link re-insertion stage of the rename transaction
installs exactly the snapshot under the new key, provided the table held
no links for the new key. -/
theorem linkStageOk (cl : List String) (stL : List CodeLinkRow)
    (newKey : String) (L : List CodeLinkRow) (links1 : List CodeLinkRow)
    (hck : cl.contains newKey = true)
    (hst : stL.filter (fun l => l.cardKey == newKey) = [])
    (h : (if L.isEmpty then (stL, none)
          else replaceCodeLinksRaw cl stL newKey
            (L.map (fun l => CodeLink.mk l.kind l.file l.symbol))) =
         (links1, (none : Option CodeLinkRow))) :
    links1.filter (fun l => l.cardKey == newKey) =
      L.map (fun l => ⟨newKey, l.kind, l.file, l.symbol⟩) := by
  split at h
  · rename_i hL
    rw [Prod.mk.injEq] at h
    obtain ⟨rfl, -⟩ := h
    rw [hst, List.isEmpty_iff.mp hL]
    rfl
  · unfold replaceCodeLinksRaw at h
    rw [replaceLinkLoop_all_ok cl newKey _ _ links1 hck h, List.filter_append,
      List.map_map]
    have h1 : ((stL.filter (fun l => l.cardKey != newKey)).filter
        (fun l => l.cardKey == newKey)) = [] := by
      rw [List.filter_eq_nil_iff]
      intro x hx
      have hx2 := (List.mem_filter.mp hx).2
      simp only [bne_iff_ne, ne_eq] at hx2
      simp [hx2]
    have h2 : ((L.map (fun l => (⟨newKey, l.kind, l.file, l.symbol⟩ : CodeLinkRow))).filter
        (fun l => l.cardKey == newKey)) =
        L.map (fun l => (⟨newKey, l.kind, l.file, l.symbol⟩ : CodeLinkRow)) := by
      rw [List.filter_eq_self]
      intro x hx
      obtain ⟨l, _, rfl⟩ := List.mem_map.mp hx
      simp
    rw [h1, List.nil_append]
    exact h2

/-- Helper: the relation re-insertion stage of the rename transaction
installs exactly the snapshotted forward edges under the new key. -/
theorem relStageOk (cl : List String) (stR : List RelationRow)
    (newKey : String) (A : List RelationRow) (rels1 : List RelationRow)
    (hck : cl.contains newKey = true)
    (hfkA : ∀ a ∈ A, cl.contains a.dstCardKey = true)
    (hst : stR.filter (fun r => r.srcCardKey == newKey && !r.isReverse) = [])
    (h : (if (A.map (fun r => CardRelation.mk r.type r.dstCardKey)).isEmpty
          then (stR, none)
          else replaceForCardRaw cl stR newKey
            (A.map (fun r => CardRelation.mk r.type r.dstCardKey))) =
         (rels1, (none : Option RelUniqueErr))) :
    rels1.filter (fun r => r.srcCardKey == newKey && !r.isReverse) =
      A.map (fun a => ⟨a.type, newKey, a.dstCardKey, false⟩) := by
  split at h
  · rename_i hA
    rw [Prod.mk.injEq] at h
    obtain ⟨rfl, -⟩ := h
    rw [hst, List.map_eq_nil_iff.mp (List.isEmpty_iff.mp hA)]
    rfl
  · unfold replaceForCardRaw at h
    have hall : ∀ r ∈ A.map (fun r => CardRelation.mk r.type r.dstCardKey),
        cl.contains newKey = true ∧ cl.contains r.target = true := by
      intro r hr
      obtain ⟨a, ha, rfl⟩ := List.mem_map.mp hr
      exact ⟨hck, hfkA a ha⟩
    rw [replaceRelLoop_all_ok cl newKey _ _ rels1 hall h, List.filter_append,
      filter_fwd_flatMap, List.map_map]
    have h1 : ((deleteOwnedRelations stR newKey).filter
        (fun r => r.srcCardKey == newKey && !r.isReverse)) = [] := by
      rw [List.filter_eq_nil_iff]
      intro x hx
      have hx2 := ((mem_deleteOwned stR newKey x).mp hx).2.1
      simp only [Bool.and_eq_true, beq_iff_eq, Bool.not_eq_true']
      exact hx2
    rw [h1, List.nil_append]
    rfl

/-- Helper: characterization of a successful rename transaction — the
new row is found under the new key with preserved fields, no row remains
under the old key, and the new key's code links, keywords, tags and
forward relations are exactly the old card's snapshots re-keyed. -/
theorem renameDbActionRaw_ok (db : DbState)
    (oldKey newKey newPath now : String) (card : CardFile) (db1 : DbState)
    (hok : renameDbActionRaw db oldKey newKey newPath now card = (db1, none))
    (hne : oldKey ≠ newKey)
    (hlinks0 : db.codeLinks.filter (fun l => l.cardKey == newKey) = [])
    (hkw0 : db.cardKeywords.filter (fun m => m.1 == newKey) = [])
    (htag0 : db.cardTags.filter (fun m => m.1 == newKey) = [])
    (hfwd0 : db.relations.filter (fun r => r.srcCardKey == newKey && !r.isReverse) = [])
    (hfk : ∀ r ∈ db.relations, r.srcCardKey = oldKey → r.isReverse = false →
      r.dstCardKey ≠ oldKey ∧ r.dstCardKey ∈ cardKeys db) :
    db1.codeLinks.filter (fun l => l.cardKey == newKey) =
      (db.codeLinks.filter (fun l => l.cardKey == oldKey)).map
        (fun l => ⟨newKey, l.kind, l.file, l.symbol⟩) ∧
    findByKey db1 newKey = some ⟨newKey, card.frontmatter.summary,
      card.frontmatter.status, card.frontmatter.constraints, card.body,
      newPath, now⟩ ∧
    findByKey db1 oldKey = none ∧
    db1.cardKeywords.filter (fun m => m.1 == newKey) =
      ((db.cardKeywords.filter (fun m => m.1 == oldKey)).map
        (fun m => m.2)).map (fun n => (newKey, n)) ∧
    db1.cardTags.filter (fun m => m.1 == newKey) =
      ((db.cardTags.filter (fun m => m.1 == oldKey)).map
        (fun m => m.2)).map (fun n => (newKey, n)) ∧
    db1.relations.filter (fun r => r.srcCardKey == newKey && !r.isReverse) =
      ((db.relations.filter (fun r => r.srcCardKey == oldKey)).filter
        (fun r => !r.isReverse)).map
        (fun a => ⟨a.type, newKey, a.dstCardKey, false⟩) := by
  simp only [renameDbActionRaw] at hok
  split at hok
  · simp at hok
  · rename_i rels1 heqrel
    split at hok
    · simp at hok
    · rename_i links1 heqlink
      rw [Prod.mk.injEq] at hok
      obtain ⟨hdb1, -⟩ := hok
      subst hdb1
      have hcasc_links : (deleteCardCascade db oldKey).codeLinks.filter
          (fun l => l.cardKey == newKey) = [] := by
        rw [List.filter_eq_nil_iff]
        intro x hx
        have hmem := List.mem_of_mem_filter hx
        exact (List.filter_eq_nil_iff.mp hlinks0) x hmem
      have hcasc_kw : (deleteCardCascade db oldKey).cardKeywords.filter
          (fun m => m.1 == newKey) = [] := by
        rw [List.filter_eq_nil_iff]
        intro x hx
        exact (List.filter_eq_nil_iff.mp hkw0) x (List.mem_of_mem_filter hx)
      have hcasc_tag : (deleteCardCascade db oldKey).cardTags.filter
          (fun m => m.1 == newKey) = [] := by
        rw [List.filter_eq_nil_iff]
        intro x hx
        exact (List.filter_eq_nil_iff.mp htag0) x (List.mem_of_mem_filter hx)
      have hcasc_rel : (deleteCardCascade db oldKey).relations.filter
          (fun r => r.srcCardKey == newKey && !r.isReverse) = [] := by
        rw [List.filter_eq_nil_iff]
        intro x hx
        exact (List.filter_eq_nil_iff.mp hfwd0) x (List.mem_of_mem_filter hx)
      refine ⟨?_, ?_, ?_, ?_, ?_, ?_⟩
      · exact linkStageOk _ _ newKey _ links1
          (by exact cardKeys_upsert_contains (deleteCardCascade db oldKey) _)
          (by exact hcasc_links) heqlink
      · have h := findByKey_upsert_self (deleteCardCascade db oldKey)
          ⟨newKey, card.frontmatter.summary, card.frontmatter.status,
           card.frontmatter.constraints, card.body, newPath, now⟩
        exact h
      · have h := findByKey_upsert_other (deleteCardCascade db oldKey)
          ⟨newKey, card.frontmatter.summary, card.frontmatter.status,
           card.frontmatter.constraints, card.body, newPath, now⟩ oldKey hne
          (findByKey_cascade_self db oldKey)
        exact h
      · exact classStageOk _ newKey _ (by exact hcasc_kw)
      · exact classStageOk _ newKey _ (by exact hcasc_tag)
      · refine relStageOk _ _ newKey _ rels1
          (by exact cardKeys_upsert_contains (deleteCardCascade db oldKey) _)
          ?_ (by exact hcasc_rel) heqrel
        intro a ha
        have ha1 := List.mem_of_mem_filter ha
        have ha2 := (List.mem_filter.mp ha).2
        have ha3 := List.mem_filter.mp ha1
        have hsrc : a.srcCardKey = oldKey := by simpa using ha3.2
        have hrev : a.isReverse = false := by simpa using ha2
        obtain ⟨hnold, hmem⟩ := hfk a ha3.1 hsrc hrev
        have h1 : a.dstCardKey ∈
            cardKeys (deleteCardCascade db oldKey) :=
          cardKeys_cascade_mem db a.dstCardKey oldKey hnold hmem
        have h2 : a.dstCardKey ∈ cardKeys (upsertCard
            (deleteCardCascade db oldKey)
            ⟨newKey, card.frontmatter.summary, card.frontmatter.status,
             card.frontmatter.constraints, card.body, newPath, now⟩) :=
          cardKeys_upsert_mem _ _ _ h1
        simpa [List.elem_iff] using h2

/-- Helper: inversion of the transaction wrapper on success. -/
theorem txWrap_none (db : DbState) (act : DbState × Option OpError)
    (db1 : DbState) (h : txWrap db act = (db1, none)) : act = (db1, none) := by
  cases act with
  | mk d err =>
    cases err with
    | none => simpa [txWrap] using h
    | some e => simp [txWrap] at h

/-- C5: `renameCard(oldKey, newSlug)`, on success, preserves the renamed
card's forward relations, keywords, tags and code links under the new
key: `findByCardKey(newKey)` on the code-link repo returns exactly the
code links the old card had (re-keyed), the new card row preserves
summary, status, constraints and body from the old card file, no row for
the old key remains, and reading the old key raises `CardNotFound`. The
hypotheses say the pre-state is consistent: the new key owns no rows yet
and the old card's forward relations point at existing, distinct cards. -/
theorem renameCard_preserves (cardsDir now : String) (st st1 : SysState)
    (fullKey newSlug oldKey newKey : String) (res : RenameCardResult)
    (cf : CardFile)
    (hparse : parseFullKey fullKey = .ok oldKey)
    (hslug : normalizeSlug newSlug = .ok newKey)
    (hread : readFile st.files (buildCardPath cardsDir oldKey) = some cf)
    (hlinks0 : st.db.codeLinks.filter (fun l => l.cardKey == newKey) = [])
    (hkw0 : st.db.cardKeywords.filter (fun m => m.1 == newKey) = [])
    (htag0 : st.db.cardTags.filter (fun m => m.1 == newKey) = [])
    (hfwd0 : st.db.relations.filter
      (fun r => r.srcCardKey == newKey && !r.isReverse) = [])
    (hfk : ∀ r ∈ st.db.relations, r.srcCardKey = oldKey → r.isReverse = false →
      r.dstCardKey ≠ oldKey ∧ r.dstCardKey ∈ cardKeys st.db)
    (hrun : renameCard cardsDir now st fullKey newSlug = (st1, .ok res)) :
    st1.db.codeLinks.filter (fun l => l.cardKey == newKey) =
      (st.db.codeLinks.filter (fun l => l.cardKey == oldKey)).map
        (fun l => ⟨newKey, l.kind, l.file, l.symbol⟩) ∧
    findByKey st1.db newKey = some ⟨newKey, cf.frontmatter.summary,
      cf.frontmatter.status, cf.frontmatter.constraints, cf.body,
      buildCardPath cardsDir newKey, now⟩ ∧
    findByKey st1.db oldKey = none ∧
    getCard cardsDir st1 fullKey = .error (.notFound oldKey) ∧
    st1.db.cardKeywords.filter (fun m => m.1 == newKey) =
      ((st.db.cardKeywords.filter (fun m => m.1 == oldKey)).map
        (fun m => m.2)).map (fun n => (newKey, n)) ∧
    st1.db.cardTags.filter (fun m => m.1 == newKey) =
      ((st.db.cardTags.filter (fun m => m.1 == oldKey)).map
        (fun m => m.2)).map (fun n => (newKey, n)) ∧
    st1.db.relations.filter (fun r => r.srcCardKey == newKey && !r.isReverse) =
      ((st.db.relations.filter (fun r => r.srcCardKey == oldKey)).filter
        (fun r => !r.isReverse)).map
        (fun a => ⟨a.type, newKey, a.dstCardKey, false⟩) := by
  simp only [renameCard, hparse, hslug] at hrun
  split at hrun
  · simp at hrun
  · rename_i hpath
    split at hrun
    · simp at hrun
    · rename_i hold
      split at hrun
      · simp at hrun
      · rename_i hnewabsent
        split at hrun
        · simp at hrun
        · rename_i moved hmoved
          rw [hread] at hmoved
          obtain rfl : cf = moved := Option.some.inj hmoved
          split at hrun
          · simp at hrun
          · rename_i db1 htx
            have hact := txWrap_none _ _ _ htx
            rw [Prod.mk.injEq] at hrun
            obtain ⟨hst1, -⟩ := hrun
            have hne : oldKey ≠ newKey := by
              intro hcon
              apply hpath
              rw [hcon]
              simp
            have hchar := renameDbActionRaw_ok st.db oldKey newKey
              (buildCardPath cardsDir newKey) now
              ⟨{ cf.frontmatter with key := newKey }, cf.body⟩ db1 hact hne
              hlinks0 hkw0 htag0 hfwd0 hfk
            have hpathne : buildCardPath cardsDir oldKey ≠
                buildCardPath cardsDir newKey := by
              intro hcon
              apply hpath
              rw [hcon]
              simp
            subst hst1
            refine ⟨hchar.1, hchar.2.1, hchar.2.2.1, ?_, hchar.2.2.2.1,
              hchar.2.2.2.2.1, hchar.2.2.2.2.2⟩
            simp only [getCard, hparse]
            rw [readFile_writeFile_other _ _ _ _ hpathne,
              readFile_writeFile_other _ _ _ _ hpathne,
              readFile_removeFile_self]

/-- C5 witness (scenario S3): card `a` holding one code link is renamed
to `b`; the code link and the card row move to the new key, and reading
the old key reports `CardNotFound`. -/
theorem renameCard_preserves_witness :
    findByKey ⟨[⟨"b", "s", .draft, none, "bd", "c/b.card.md", "t1"⟩], [], [], [],
        [⟨"b", "fn", "x.ts", "F"⟩]⟩ "b" =
      some ⟨"b", "s", .draft, none, "bd", "c/b.card.md", "t1"⟩ ∧
    findByKey ⟨[⟨"b", "s", .draft, none, "bd", "c/b.card.md", "t1"⟩], [], [], [],
        [⟨"b", "fn", "x.ts", "F"⟩]⟩ "a" = none ∧
    getCard "c" ⟨[("c/b.card.md", ⟨⟨"b", "s", .draft, none, none, none, none, none⟩, "bd"⟩)],
        ⟨[⟨"b", "s", .draft, none, "bd", "c/b.card.md", "t1"⟩], [], [], [],
         [⟨"b", "fn", "x.ts", "F"⟩]⟩⟩ "a" = .error (.notFound "a") ∧
    List.filter (fun l => l.cardKey == "b")
        [(⟨"b", "fn", "x.ts", "F"⟩ : CodeLinkRow)] = [⟨"b", "fn", "x.ts", "F"⟩] := by
  have h := renameCard_preserves "c" "t1"
    ⟨[("c/a.card.md", ⟨⟨"a", "s", .draft, none, none, none, none, none⟩, "bd"⟩)],
     ⟨[⟨"a", "s", .draft, none, "bd", "c/a.card.md", "t0"⟩], [], [], [],
      [⟨"a", "fn", "x.ts", "F"⟩]⟩⟩
    ⟨[("c/b.card.md", ⟨⟨"b", "s", .draft, none, none, none, none, none⟩, "bd"⟩)],
     ⟨[⟨"b", "s", .draft, none, "bd", "c/b.card.md", "t1"⟩], [], [], [],
      [⟨"b", "fn", "x.ts", "F"⟩]⟩⟩
    "a" "b" "a" "b"
    ⟨"c/a.card.md", "c/b.card.md", "b",
     ⟨⟨"b", "s", .draft, none, none, none, none, none⟩, "bd"⟩⟩
    ⟨⟨"a", "s", .draft, none, none, none, none, none⟩, "bd"⟩
    rfl rfl rfl rfl rfl rfl rfl
    (fun r hr => absurd hr (List.not_mem_nil r))
    rfl
  exact ⟨h.2.1, h.2.2.1, h.2.2.2.1, h.1⟩

end Emberdeck
